import Mathlib

/-!
Verification development for the LampCode IDE core: the file-operation
extraction / validation / execution engine (`src/chat.ts` `ChatManager`,
`src/explorer.ts` `ExplorerManager`).  Every definition is a shallow
embedding of the corresponding TypeScript function; JavaScript strings are
modelled as Lean `String` (lists of characters), `Map` lookups as list
searches, and the host `JSON.parse` builtin as an executable JSON parser
over the JSON grammar.
-/

namespace LampCode

/-! ## JavaScript string primitives -/

/-- Decidable test that list `s` starts with list `pat`. -/
def listStartsWith : List Char → List Char → Bool
  | _, [] => true
  | [], _ :: _ => false
  | a :: as, b :: bs => a == b && listStartsWith as bs

/-- Decidable substring containment: does `s` contain `pat` as a contiguous
sublist?  Models `String.prototype.includes`. -/
def listContainsSub : List Char → List Char → Bool
  | s, pat =>
    match s with
    | [] => pat.isEmpty
    | _ :: t => listStartsWith s pat || listContainsSub t pat

/-- Models `String.prototype.includes(pat)`. -/
def strContains (s pat : String) : Bool := listContainsSub s.data pat.data

/-- Models `String.prototype.startsWith(pat)`. -/
def strStartsWith (s pat : String) : Bool := listStartsWith s.data pat.data

/-- Characters stripped by `String.prototype.trim` that occur in this
code base (the full JS set also has exotic unicode space characters that
never appear in the repository's data). -/
def jsWhitespaceChar (c : Char) : Bool :=
  c == ' ' || c == '\t' || c == '\n' || c == '\r' ||
  c == '\x0b' || c == '\x0c' || c == '\xa0'

/-- Models `String.prototype.trim()`. -/
def jsTrim (s : String) : String :=
  ⟨((s.data.dropWhile jsWhitespaceChar).reverse.dropWhile jsWhitespaceChar).reverse⟩

/-- Models the global replace `path.replace(/[`"']/g, '')` used by the
candidate-path cleanup in `chat.ts`. -/
def quoteChar (c : Char) : Bool := c == '`' || c == '"' || c == '\''

/-- Strips all backtick, double-quote and single-quote characters. -/
def stripQuoteChars (s : String) : String := ⟨s.data.filter (fun c => !quoteChar c)⟩

/-- ASCII letter or digit, the `[a-zA-Z0-9]` character class. -/
def isAsciiAlnum (c : Char) : Bool :=
  ('a' ≤ c && c ≤ 'z') || ('A' ≤ c && c ≤ 'Z') || ('0' ≤ c && c ≤ '9')

/-- Models the test `/\.[a-zA-Z0-9]+$/.test(path)`: the string ends in a
dot followed by one or more ASCII alphanumeric characters. -/
def hasDotExtension (s : String) : Bool :=
  let r := s.data.reverse
  let ds := r.takeWhile isAsciiAlnum
  !ds.isEmpty &&
    (match r.drop ds.length with
     | '.' :: _ => true
     | _ => false)

/-- Embedding of `ChatManager.isValidFilePath` (`chat.ts`): strips quote
characters and whitespace, then rejects parent traversal, absolute paths,
backslashes and extensionless names. -/
def isValidFilePath (path : String) : Bool :=
  -- `if (!path || typeof path !== 'string') return false;`
  if path.isEmpty then false
  else
    -- `path = path.replace(/[`"']/g, '').trim();`
    let p := jsTrim (stripQuoteChars path)
    -- `if (path.includes('..') || path.startsWith('/') || path.includes('\\')) return false;`
    if strContains p ".." || strStartsWith p "/" || strContains p "\\" then false
    -- `if (!/\.[a-zA-Z0-9]+$/.test(path)) return false;`
    else if !hasDotExtension p then false
    -- `if (path.length === 0) return false;`
    else if p.isEmpty then false
    else true

/-! ## Decimal rendering of the collision counter

`handleFileNameConflicts` renders its counter with a template literal
`${counter}`, i.e. base-10 digits.  `natToDec` is that rendering. -/

/-- Digit character for a value below ten. -/
def decDigitChar (n : Nat) : Char := Char.ofNat (48 + n)

/-- Base-10 digit accumulation with structural fuel (kept structurally
recursive so that the kernel can evaluate it); a fuel of `n + 1` always
suffices. -/
def decDigitsAux : Nat → Nat → List Char
  | 0, _ => []
  | fuel + 1, n =>
    if n < 10 then [decDigitChar n]
    else decDigitsAux fuel (n / 10) ++ [decDigitChar (n % 10)]

/-- Base-10 digit list of a natural number, most significant first. -/
def decDigits (n : Nat) : List Char := decDigitsAux (n + 1) n

/-- Decimal rendering of a natural number, modelling the JS template
literal `${counter}`. -/
def natToDec (n : Nat) : String := ⟨decDigits n⟩

/-- Value of a digit list, most significant first. -/
def decValue (l : List Char) : Nat :=
  l.foldl (fun acc c => 10 * acc + (c.toNat - 48)) 0

theorem decValue_append (l : List Char) (c : Char) :
    decValue (l ++ [c]) = 10 * decValue l + (c.toNat - 48) := by
  simp [decValue, List.foldl_append]

theorem decDigitChar_toNat (d : Nat) (h : d < 10) : (decDigitChar d).toNat = 48 + d := by
  interval_cases d <;> decide

theorem decValue_decDigitsAux (fuel n : Nat) (hfuel : n < fuel) :
    decValue (decDigitsAux fuel n) = n := by
  induction fuel generalizing n with
  | zero => omega
  | succ fuel ih =>
    rw [decDigitsAux]
    by_cases h : n < 10
    · simp only [h, if_true]
      simp [decValue, decDigitChar_toNat n h]
    · simp only [h, if_false]
      rw [decValue_append]
      rw [ih (n / 10) (by omega)]
      rw [decDigitChar_toNat (n % 10) (Nat.mod_lt n (by omega))]
      omega

theorem decValue_decDigits (n : Nat) : decValue (decDigits n) = n :=
  decValue_decDigitsAux (n + 1) n (Nat.lt_succ_self n)

theorem natToDec_injective : Function.Injective natToDec := by
  intro a b h
  have : decValue (decDigits a) = decValue (decDigits b) := by
    have hd : decDigits a = decDigits b := congrArg String.data h
    rw [hd]
  rwa [decValue_decDigits, decValue_decDigits] at this

/-! ## Workspace data model (`types.ts`, `explorer.ts`)

`WorkspaceFile` is the TS interface of the same name; optional TS fields
become `Option`.  The TS `Workspace` keeps the file list and the
`byPath : Map<string, WorkspaceFile>` index in lockstep (every mutation in
`explorer.ts` updates both together), so the embedding keeps the list as
the single source of truth and derives the index lookup from it.  The
lazily rebuilt `tree` is a derived render view and carries no state of its
own beyond expansion flags, so it is not modelled. -/

structure WFile where
  path : String
  name : String
  isDir : Bool
  size : Nat
  text : Option String
  selected : Option Bool
  estTokens : Option Nat
  deriving DecidableEq, Repr

structure Workspace where
  name : Option String
  files : List WFile
  deriving DecidableEq, Repr

/-- Models `workspace.byPath.has(p)`. -/
def byPathHas (ws : Workspace) (p : String) : Bool :=
  ws.files.any (fun f => f.path == p)

/-- Models `workspace.byPath.get(p)` (first and only entry for a key,
since paths are unique keys of the map). -/
def byPathGet (ws : Workspace) (p : String) : Option WFile :=
  ws.files.find? (fun f => f.path == p)

/-- The list of keys of the path index. -/
def wsPaths (ws : Workspace) : List String := ws.files.map (·.path)

/-- Embedding of `estimateTokens` (`utils.ts`): `Math.ceil(text.length / 4)`
with `0` for an absent text. -/
def estimateTokens : Option String → Nat
  | none => 0
  | some t => (t.length + 3) / 4

/-- Stand-in for the timestamp-derived default workspace name produced by
`initializeNewWorkspace` (`explorer.ts`); the generated name is built from
the wall clock, which no claim observes, so a fixed constant models it. -/
def defaultWorkspaceName : String := "my-project"

/-- Splitter for `path.split('/')`: segments between the separators, in
order (JS `String.prototype.split` with a one-character separator). -/
def splitSlashAux : List Char → List Char → List String
  | [], acc => [⟨acc.reverse⟩]
  | c :: t, acc =>
    if c == '/' then ⟨acc.reverse⟩ :: splitSlashAux t []
    else splitSlashAux t (c :: acc)

/-- Models `path.split('/')`. -/
def splitSlash (s : String) : List String := splitSlashAux s.data []

/-- The `WorkspaceFile` record built by `ExplorerManager.createFile`. -/
def mkWorkspaceFile (path content : String) : WFile :=
  { path := path
    -- `const name = path.split('/').pop() || '';`
    name := (splitSlash path).getLastD ""
    isDir := false
    size := content.length
    text := some content
    selected := some true
    estTokens := some (estimateTokens (some content)) }

/-- The `initializeNewWorkspace` call guarding `createFile`: when no
workspace is loaded (`!this.workspace.name && files.length === 0`) a
fresh named workspace is initialised in place. -/
def autoInitWorkspace (ws : Workspace) : Workspace :=
  if ws.name = none ∧ ws.files = [] then { ws with name := some defaultWorkspaceName } else ws

/-- Embedding of `ExplorerManager.createFile` (`explorer.ts`): auto-creates
a workspace when none is loaded, throws when the path is already taken,
otherwise appends the new file to the list and the index. -/
def createFile (ws0 : Workspace) (path content : String) : Except String Workspace :=
  let ws := autoInitWorkspace ws0
  if byPathHas ws path then
    .error ("File already exists at path: " ++ path)
  else
    .ok { ws with files := ws.files ++ [mkWorkspaceFile path content] }

/-- Embedding of `ExplorerManager.updateFileContent` (`explorer.ts`). -/
def updateFileContent (ws : Workspace) (path newContent : String) : Except String Workspace :=
  if byPathHas ws path then
    .ok { ws with files := ws.files.map (fun f =>
      if f.path == path then
        { f with text := some newContent
                 size := newContent.length
                 estTokens := some (estimateTokens (some newContent)) }
      else f) }
  else
    .error ("File not found at path: " ++ path)

/-- Embedding of `ExplorerManager.deleteFile` (`explorer.ts`). -/
def deleteFile (ws : Workspace) (path : String) : Except String Workspace :=
  if byPathHas ws path then
    .ok { ws with files := ws.files.filter (fun f => !(f.path == path)) }
  else
    .error ("File not found at path: " ++ path)

/-! ## Collision rename (`ChatManager.handleFileNameConflicts`) -/

/-- Split of a path at its last dot, modelling
`path.substring(0, path.lastIndexOf('.'))` and
`path.substring(path.lastIndexOf('.'))`.  When the path has no dot,
`lastIndexOf` is `-1` and the JS `substring` clamps give `("", path)`. -/
def lastDotSplit (path : String) : String × String :=
  let r := path.data.reverse
  match r.findIdx? (fun c => c == '.') with
  | none => ("", path)
  | some i =>
      -- the dot sits `i` characters from the end
      let cut := path.data.length - (i + 1)
      (⟨path.data.take cut⟩, ⟨path.data.drop cut⟩)

/-- The candidate `` `${nameWithoutExt}_${counter}${extension}` ``. -/
def renameCandidate (base ext : String) (counter : Nat) : String :=
  base ++ "_" ++ natToDec counter ++ ext

/-- The `while (byPath.has(newPath))` search loop of
`handleFileNameConflicts`, embedded with explicit fuel; `taken` is the key
set of the path index.  The fuel used by `handleFileNameConflicts` is
provably sufficient (`renameLoop_not_taken`). -/
def renameLoop (taken : List String) (base ext : String) : Nat → Nat → String
  | counter, 0 => renameCandidate base ext counter
  | counter, fuel + 1 =>
    let p := renameCandidate base ext counter
    if taken.contains p then renameLoop taken base ext (counter + 1) fuel else p

/-- Embedding of `ChatManager.handleFileNameConflicts` (`chat.ts`):
returns the path unchanged when unused, otherwise inserts `_1`, `_2`, …
before the extension until an unused path is found. -/
def handleFileNameConflicts (ws : Workspace) (path : String) : String :=
  if !byPathHas ws path then path
  else
    let s := lastDotSplit path
    renameLoop (wsPaths ws) s.1 s.2 1 (ws.files.length + 1)

theorem renameCandidate_injective (base ext : String) :
    Function.Injective (renameCandidate base ext) := by
  intro a b h
  apply natToDec_injective
  have h2 : (renameCandidate base ext a).data = (renameCandidate base ext b).data :=
    congrArg String.data h
  simp only [renameCandidate, String.data_append, List.append_assoc] at h2
  have h3 := List.append_cancel_left (List.append_cancel_left h2)
  have h5 := List.append_cancel_right h3
  exact String.ext h5

/-- Pigeonhole: among `L.length + 1` pairwise distinct strings some string
is missing from `L`. -/
theorem exists_fresh_index (L : List String) (f : Nat → String)
    (hf : Function.Injective f) :
    ∃ j, j ≤ L.length ∧ f j ∉ L := by
  by_contra hall
  push_neg at hall
  have hsub : ((List.range (L.length + 1)).map f) ⊆ L := by
    intro x hx
    rcases List.mem_map.mp hx with ⟨j, hj, rfl⟩
    exact hall j (by simpa using Nat.lt_succ_iff.mp (List.mem_range.mp hj))
  have hnd : ((List.range (L.length + 1)).map f).Nodup :=
    (List.nodup_range _).map hf
  have hle := List.Subperm.length_le (List.subperm_of_subset hnd hsub)
  simp at hle

theorem renameLoop_spec (taken : List String) (base ext : String)
    (start fuel : Nat)
    (hex : ∃ j < fuel, renameCandidate base ext (start + j) ∉ taken) :
    renameLoop taken base ext start fuel ∉ taken ∧
    ∃ n, renameLoop taken base ext start fuel = renameCandidate base ext n ∧
      start ≤ n ∧
      renameCandidate base ext n ∉ taken ∧
      ∀ m, start ≤ m → m < n → renameCandidate base ext m ∈ taken := by
  induction fuel generalizing start with
  | zero =>
    rcases hex with ⟨j, hj, _⟩
    exact absurd hj (Nat.not_lt_zero j)
  | succ fuel ih =>
    by_cases hmem : renameCandidate base ext start ∈ taken
    · rw [renameLoop, if_pos (show taken.contains (renameCandidate base ext start) = true from
        List.elem_eq_true_of_mem hmem)]
      have hex2 : ∃ j < fuel, renameCandidate base ext (start + 1 + j) ∉ taken := by
        rcases hex with ⟨j, hj, hfree⟩
        rcases j with _ | j
        · exact absurd hfree (by simpa using hmem)
        · exact ⟨j, by omega, by simpa [Nat.add_assoc, Nat.add_comm 1 j] using hfree⟩
      rcases ih (start + 1) hex2 with ⟨hout, n, heq, hge, hfree, hmin⟩
      refine ⟨hout, n, heq, by omega, hfree, ?_⟩
      intro m hm1 hm2
      rcases Nat.eq_or_lt_of_le hm1 with rfl | hlt
      · exact hmem
      · exact hmin m hlt hm2
    · rw [renameLoop, if_neg (fun hc => hmem (List.elem_iff.mp hc))]
      exact ⟨hmem, start, rfl, le_refl _, hmem, fun m hm1 hm2 => absurd hm1 (by omega)⟩

/-- The fuel passed by `handleFileNameConflicts` always suffices: a fresh
candidate exists within the first `files.length + 1` counters. -/
theorem handleFileNameConflicts_fresh (ws : Workspace) (path : String)
    (hcol : byPathHas ws path = true) :
    handleFileNameConflicts ws path ∉ wsPaths ws ∧
    ∃ n, 1 ≤ n ∧
      handleFileNameConflicts ws path
        = renameCandidate (lastDotSplit path).1 (lastDotSplit path).2 n ∧
      (∀ m, 1 ≤ m → m < n →
        renameCandidate (lastDotSplit path).1 (lastDotSplit path).2 m ∈ wsPaths ws) := by
  have hlen : (wsPaths ws).length = ws.files.length := by simp [wsPaths]
  have hex : ∃ j < ws.files.length + 1,
      renameCandidate (lastDotSplit path).1 (lastDotSplit path).2 (1 + j) ∉ wsPaths ws := by
    rcases exists_fresh_index (wsPaths ws)
        (fun j => renameCandidate (lastDotSplit path).1 (lastDotSplit path).2 (1 + j))
        (fun a b h => by
          have := renameCandidate_injective _ _ h
          omega) with ⟨j, hj, hfree⟩
    exact ⟨j, by omega, hfree⟩
  have hspec := renameLoop_spec (wsPaths ws) (lastDotSplit path).1 (lastDotSplit path).2
      1 (ws.files.length + 1) hex
  rw [handleFileNameConflicts] at *
  simp only [hcol, Bool.not_true, Bool.false_eq_true, if_false]
  rcases hspec with ⟨hout, n, heq, hge, _hfree, hmin⟩
  exact ⟨hout, n, hge, heq, hmin⟩

/-! ## JSON values and `JSON.parse`

`executeFileOperations` feeds the raw response text to the host
`JSON.parse`.  The parser below is an executable model of that builtin
over the JSON grammar; numbers keep their lexeme (no claim observes a
numeric value).  Duplicate object keys follow `JSON.parse`: the last
occurrence wins (`jget` searches from the end). -/

inductive Json where
  | null
  | bool (b : Bool)
  | num (lex : String)
  | str (s : String)
  | arr (elems : List Json)
  | obj (fields : List (String × Json))
  deriving Repr

/-- Property access `value[key]` as `JSON.parse` data: `none` models the
JS `undefined` (also for access on primitives and arrays, which carry no
string-keyed own properties of interest here). -/
def jget (j : Json) (key : String) : Option Json :=
  match j with
  | .obj fields => ((fields.reverse).find? (fun kv => kv.1 == key)).map (·.2)
  | _ => none

/-- Mantissa digits of a JSON number lexeme are all zero exactly when the
number is `0` or `-0` (both falsy in JS). -/
def jsNumIsZero (lex : String) : Bool :=
  let body := lex.data.dropWhile (fun c => c == '-')
  let mantissa := body.takeWhile (fun c => !(c == 'e' || c == 'E'))
  mantissa.all (fun c => c == '0' || c == '.')

/-- JS truthiness of a possibly-undefined value. -/
def jsTruthy : Option Json → Bool
  | none => false
  | some .null => false
  | some (.bool b) => b
  | some (.num lex) => !jsNumIsZero lex
  | some (.str s) => !s.isEmpty
  | some (.arr _) => true
  | some (.obj _) => true

/-- JS `typeof v === 'object'` for JSON data: objects, arrays and `null`. -/
def jsTypeofObject : Json → Bool
  | .obj _ => true
  | .arr _ => true
  | .null => true
  | _ => false

/-- JSON whitespace characters. -/
def jsonWs (c : Char) : Bool := c == ' ' || c == '\t' || c == '\n' || c == '\r'

/-- ASCII decimal digit. -/
def isDigitChar (c : Char) : Bool := '0' ≤ c && c ≤ '9'

/-- Hex digit value used by `\uXXXX` string escapes. -/
def hexVal (c : Char) : Option Nat :=
  if '0' ≤ c && c ≤ '9' then some (c.toNat - 48)
  else if 'a' ≤ c && c ≤ 'f' then some (c.toNat - 87)
  else if 'A' ≤ c && c ≤ 'F' then some (c.toNat - 55)
  else none

/-- Parses the remainder of a JSON string literal (the opening quote
already consumed), returning the decoded characters and the rest. -/
def parseJsonString : List Char → Option (List Char × List Char)
  | [] => none
  | '"' :: rest => some ([], rest)
  | '\\' :: esc =>
    match esc with
    | '"' :: rest => (parseJsonString rest).map (fun r => ('"' :: r.1, r.2))
    | '\\' :: rest => (parseJsonString rest).map (fun r => ('\\' :: r.1, r.2))
    | '/' :: rest => (parseJsonString rest).map (fun r => ('/' :: r.1, r.2))
    | 'b' :: rest => (parseJsonString rest).map (fun r => ('\x08' :: r.1, r.2))
    | 'f' :: rest => (parseJsonString rest).map (fun r => ('\x0c' :: r.1, r.2))
    | 'n' :: rest => (parseJsonString rest).map (fun r => ('\n' :: r.1, r.2))
    | 'r' :: rest => (parseJsonString rest).map (fun r => ('\r' :: r.1, r.2))
    | 't' :: rest => (parseJsonString rest).map (fun r => ('\t' :: r.1, r.2))
    | 'u' :: a :: b :: c :: d :: rest =>
      match hexVal a, hexVal b, hexVal c, hexVal d with
      | some va, some vb, some vc, some vd =>
        let n := ((va * 16 + vb) * 16 + vc) * 16 + vd
        (parseJsonString rest).map (fun r => (Char.ofNat n :: r.1, r.2))
      | _, _, _, _ => none
    | _ => none
  | c :: rest =>
    -- unescaped control characters are rejected by JSON
    if c.toNat < 32 then none
    else (parseJsonString rest).map (fun r => (c :: r.1, r.2))

/-- Parses a JSON number lexeme `-? int frac? exp?` and returns it with
the rest of the input. -/
def parseJsonNumber (l : List Char) : Option (List Char × List Char) :=
  let (sign, l1) := match l with
    | '-' :: t => (['-'], t)
    | _ => (([] : List Char), l)
  let intPart := l1.takeWhile isDigitChar
  let l2 := l1.drop intPart.length
  if intPart.isEmpty then none
  else if intPart.length > 1 && intPart.headD '0' == '0' then none
  else
    let (frac, l3) :=
      match l2 with
      | '.' :: t =>
        let ds := t.takeWhile isDigitChar
        if ds.isEmpty then ([], l2) else ('.' :: ds, t.drop ds.length)
      | _ => ([], l2)
    if frac.isEmpty && (match l2 with | '.' :: _ => true | _ => false) then none
    else
      let (ex, l4) :=
        match l3 with
        | e :: t =>
          if e == 'e' || e == 'E' then
            let (s2, t2) := match t with
              | c :: t3 => if c == '+' || c == '-' then ([c], t3) else ([], t)
              | [] => ([], t)
            let ds := t2.takeWhile isDigitChar
            if ds.isEmpty then (([] : List Char), l3)
            else (e :: (s2 ++ ds), t2.drop ds.length)
          else ([], l3)
        | [] => ([], l3)
      some (sign ++ intPart ++ frac ++ ex, l4)

mutual

/-- Recursive-descent JSON value parser; the fuel strictly decreases on
every mutual call and a fuel of twice the input length is always ample. -/
def parseJsonValue : Nat → List Char → Option (Json × List Char)
  | 0, _ => none
  | fuel + 1, l =>
    match l.dropWhile jsonWs with
    | [] => none
    | '{' :: rest =>
      (match rest.dropWhile jsonWs with
       | '}' :: rest2 => some (.obj [], rest2)
       | _ => (parseJsonMembers fuel rest).map (fun r => (.obj r.1, r.2)))
    | '[' :: rest =>
      (match rest.dropWhile jsonWs with
       | ']' :: rest2 => some (.arr [], rest2)
       | _ => (parseJsonElements fuel rest).map (fun r => (.arr r.1, r.2)))
    | '"' :: rest =>
      (parseJsonString rest).map (fun r => (.str ⟨r.1⟩, r.2))
    | 't' :: rest =>
      if listStartsWith rest "rue".data then some (.bool true, rest.drop 3) else none
    | 'f' :: rest =>
      if listStartsWith rest "alse".data then some (.bool false, rest.drop 4) else none
    | 'n' :: rest =>
      if listStartsWith rest "ull".data then some (.null, rest.drop 3) else none
    | c :: rest =>
      (parseJsonNumber (c :: rest)).map (fun r => (.num ⟨r.1⟩, r.2))

/-- Parses a non-empty comma-separated member list, up to and including
the closing brace. -/
def parseJsonMembers : Nat → List Char → Option (List (String × Json) × List Char)
  | 0, _ => none
  | fuel + 1, l =>
    match l.dropWhile jsonWs with
    | '"' :: rest =>
      match parseJsonString rest with
      | some (key, r1) =>
        (match r1.dropWhile jsonWs with
         | ':' :: r2 =>
           match parseJsonValue fuel r2 with
           | some (v, r3) =>
             (match r3.dropWhile jsonWs with
              | ',' :: r4 =>
                (parseJsonMembers fuel r4).map (fun t => ((⟨key⟩, v) :: t.1, t.2))
              | '}' :: r4 => some ([(⟨key⟩, v)], r4)
              | _ => none)
           | none => none
         | _ => none)
      | none => none
    | _ => none

/-- Parses a non-empty comma-separated element list, up to and including
the closing bracket. -/
def parseJsonElements : Nat → List Char → Option (List Json × List Char)
  | 0, _ => none
  | fuel + 1, l =>
    match parseJsonValue fuel l with
    | some (v, r1) =>
      (match r1.dropWhile jsonWs with
       | ',' :: r2 => (parseJsonElements fuel r2).map (fun t => (v :: t.1, t.2))
       | ']' :: r2 => some ([v], r2)
       | _ => none)
    | none => none

end

/-- Executable model of the host `JSON.parse`: parses one JSON value and
rejects trailing garbage; `none` models the thrown `SyntaxError`. -/
def jsonParse (s : String) : Option Json :=
  match parseJsonValue (2 * s.data.length + 2) s.data with
  | some (v, rest) => if (rest.dropWhile jsonWs).isEmpty then some v else none
  | none => none

/-! ## Operation validation and execution (`ChatManager.executeFileOperations`)

Candidate operations are JSON values: the structured-output strategy uses
the parsed `operations` array verbatim, and the text strategies push
object literals of the same shape, so the whole pipeline downstream of
parsing is modelled on `Json`. -/

/-- Tests `op.operation === kind` for a string `kind`. -/
def opIs (op : Json) (kind : String) : Bool :=
  match jget op "operation" with
  | some (.str o) => o == kind
  | _ => false

/-- String value of a field; only consulted after validation has
established that the field holds a string. -/
def jgetStr (op : Json) (key : String) : String :=
  match jget op key with
  | some (.str s) => s
  | _ => ""

/-- The spread `{...op, key: v}`: replaces the field in place when
present, appends it otherwise. -/
def jsetField (op : Json) (key : String) (v : Json) : Json :=
  match op with
  | .obj fields =>
    if fields.any (fun kv => kv.1 == key) then
      .obj (fields.map (fun kv => if kv.1 == key then (kv.1, v) else kv))
    else
      .obj (fields ++ [(key, v)])
  | other => other

/-- Embedding of the per-operation structural validation loop of
`executeFileOperations` (`chat.ts`): recognised kind, truthy string path
without parent traversal or a leading separator, and string content for
create/edit. -/
def validOp (op : Json) : Bool :=
  -- `if (!op || typeof op !== 'object' || !op.operation || !op.path)`
  jsTruthy (some op) && jsTypeofObject op &&
  jsTruthy (jget op "operation") && jsTruthy (jget op "path") &&
  -- `if (!['create_file', 'edit_file', 'delete_file'].includes(op.operation))`
  (opIs op "create_file" || opIs op "edit_file" || opIs op "delete_file") &&
  -- `if (typeof op.path !== 'string' || op.path.includes('..') || op.path.startsWith('/'))`
  (match jget op "path" with
   | some (.str p) => !strContains p ".." && !strStartsWith p "/"
   | _ => false) &&
  -- `if ((op.operation === 'create_file' || op.operation === 'edit_file') && typeof op.content !== 'string')`
  (!(opIs op "create_file" || opIs op "edit_file") ||
    (match jget op "content" with
     | some (.str _) => true
     | _ => false))

/-- The validation loop returns early on the first offender; as a batch
predicate that is conjunction over the list. -/
def validBatch (ops : List Json) : Bool := ops.all validOp

/-- Embedding of the destructive filter in `confirmDestructiveOperation`
(`chat.ts`): deletes, and edits whose path is already present. -/
def destructiveOps (ws : Workspace) (ops : List Json) : List Json :=
  ops.filter (fun op =>
    opIs op "delete_file" ||
    (opIs op "edit_file" &&
      (match jget op "path" with
       | some (.str p) => byPathHas ws p
       | _ => false)))

/-- Embedding of `confirmDestructiveOperation`: when no destructive
operation is present, approval is implicit and the confirmation
capability is not consulted; otherwise the capability decides.  The
external capability (`notificationManager.confirm`) is modelled by its
eventual boolean `answer`.  Returns `(proceed, invoked)`. -/
def confirmDestructiveOperation (answer : Bool) (ws : Workspace) (ops : List Json) :
    Bool × Bool :=
  if (destructiveOps ws ops).isEmpty then (true, false)
  else (answer, true)

/-- Serialized workspace snapshot stored under
`lamp_workspace_backup_v1`; `JSON.stringify` runs at save time, so the
snapshot is a value copy, which the embedding gets by immutability.  The
serialized render tree is derived data and not modelled. -/
structure Backup where
  name : Option String
  files : List WFile
  deriving DecidableEq, Repr

/-- Mutable state owned by the chat/explorer pair that the execution
pipeline touches: the live workspace, the one-slot backup and the
last-executed-operations list backing undo. -/
structure AppState where
  workspace : Workspace
  backup : Option Backup
  lastExecutedOperations : List Json

/-- Embedding of `ExplorerManager.backupWorkspaceState`. -/
def backupWorkspaceState (st : AppState) : AppState :=
  { st with backup := some ⟨st.workspace.name, st.workspace.files⟩ }

/-- Embedding of `ExplorerManager.restoreWorkspaceState`: restores the
live workspace from the snapshot and clears the one-use backup slot;
without a backup it does nothing. -/
def restoreWorkspaceState (st : AppState) : AppState :=
  match st.backup with
  | some b => { st with workspace := ⟨b.name, b.files⟩, backup := none }
  | none => st

/-- The create-branch collision guard of the execution loop: rename only
when the requested path is already taken. -/
def createTargetPath (ws : Workspace) (p : String) : String :=
  if byPathHas ws p then handleFileNameConflicts ws p else p

/-- One iteration of the execution loop of `executeFileOperations`
(`chat.ts` switch over `op.operation`), returning the updated workspace
and the entries appended to `executedOperations` / `failedOperations`.
Thrown explorer errors are caught per operation and recorded with
`error.message` as the reason. -/
def execOneOp (ws : Workspace) (op : Json) : Workspace × List Json × List Json :=
  if opIs op "create_file" then
    let p := jgetStr op "path"
    -- `let createPath = op.path; if (byPath.has(op.path)) createPath = handleFileNameConflicts(op.path)`
    let createPath := createTargetPath ws p
    match createFile ws createPath (jgetStr op "content") with
    | .ok ws2 => (ws2, [jsetField op "path" (.str createPath)], [])
    | .error msg => (ws, [], [jsetField op "reason" (.str msg)])
  else if opIs op "edit_file" then
    let p := jgetStr op "path"
    if !byPathHas ws p then
      -- degrade to create; reported as a create in `executedOperations`
      match createFile ws p (jgetStr op "content") with
      | .ok ws2 =>
        (ws2,
         [Json.obj ([("operation", .str "create_file"), ("path", .str p)] ++
           (match jget op "content" with
            | some c => [("content", c)]
            | none => []))],
         [])
      | .error msg => (ws, [], [jsetField op "reason" (.str msg)])
    else
      match updateFileContent ws p (jgetStr op "content") with
      | .ok ws2 => (ws2, [op], [])
      | .error msg => (ws, [], [jsetField op "reason" (.str msg)])
  else if opIs op "delete_file" then
    let p := jgetStr op "path"
    if byPathHas ws p then
      match deleteFile ws p with
      | .ok ws2 => (ws2, [op], [])
      | .error msg => (ws, [], [jsetField op "reason" (.str msg)])
    else
      (ws, [], [jsetField op "reason" (.str "File not found")])
  else
    (ws, [], [jsetField op "reason" (.str "Unknown operation")])

/-- The `for (const op of ops)` execution loop, threading the live
workspace and accumulating executed and failed entries in order. -/
def execOpsLoop : Workspace → List Json → Workspace × List Json × List Json
  | ws, [] => (ws, [], [])
  | ws, op :: rest =>
    let step := execOneOp ws op
    let tail := execOpsLoop step.1 rest
    (tail.1, step.2.1 ++ tail.2.1, step.2.2 ++ tail.2.2)

/-- Observable outcome of one `executeFileOperations` run. -/
structure ExecResult where
  state : AppState
  returned : Bool
  confirmInvoked : Bool
  backupTaken : Bool
  executed : List Json
  failed : List Json

/-- Embedding of `executeFileOperations` downstream of parsing (`chat.ts`
lines 651-845): empty-batch gate, structural validation with batch-level
abort, destructive confirmation, backup, execution loop, and result
bookkeeping.  `confirmAnswer` is the resolution of the confirmation
capability. -/
def runOps (st : AppState) (ops : List Json) (confirmAnswer : Bool) : ExecResult :=
  -- `if (!ops || ops.length === 0) return false`
  if ops.isEmpty then ⟨st, false, false, false, [], []⟩
  -- validation loop: any offender rejects the whole batch before anything runs
  else if !validBatch ops then ⟨st, false, false, false, [], []⟩
  else
    let conf := confirmDestructiveOperation confirmAnswer st.workspace ops
    if !conf.1 then
      -- cancelled: no backup, no mutation
      ⟨st, false, conf.2, false, [], []⟩
    else
      -- `this.explorerManager.backupWorkspaceState();`
      let st1 := backupWorkspaceState st
      let run := execOpsLoop st1.workspace ops
      -- `this.lastExecutedOperations = executedOperations;`
      ⟨{ workspace := run.1, backup := st1.backup, lastExecutedOperations := run.2.1 },
        !run.2.1.isEmpty, conf.2, true, run.2.1, run.2.2⟩

/-- Embedding of `undoLastOperations` (`chat.ts`): refuses without a
recorded batch, asks the confirmation capability, then restores the
backup snapshot and clears the recorded batch. -/
def undoLastOperations (confirmAnswer : Bool) (st : AppState) : AppState :=
  if st.lastExecutedOperations.isEmpty then st
  else if !confirmAnswer then st
  else
    let st1 := restoreWorkspaceState st
    { st1 with lastExecutedOperations := [] }

/-! ## Convenience constructors for candidate operations (test data) -/

/-- A structured create operation object. -/
def createOp (p c : String) : Json :=
  .obj [("operation", .str "create_file"), ("path", .str p), ("content", .str c)]

/-- A structured edit operation object. -/
def editOp (p c : String) : Json :=
  .obj [("operation", .str "edit_file"), ("path", .str p), ("content", .str c)]

/-- A structured delete operation object. -/
def deleteOp (p : String) : Json :=
  .obj [("operation", .str "delete_file"), ("path", .str p)]

/-! ## A small backtracking regex engine

The text-extraction strategies of `ChatManager` are JS regular
expressions.  The engine below models the constructs those patterns use —
literals, character classes (with ranges and negation), `.`, alternation,
greedy and lazy `*`/`+`/`?`, capturing groups, and the `^`/`$` anchors in
both multiline and single-line form — with the ECMAScript backtracking
order: leftmost match, left alternative first, greedy-longest / lazy-
shortest, and the no-empty-iteration rule for quantifiers.  Matching is
continuation-passing with a structural fuel that bounds only the depth of
the search (the fuel supplied by the drivers is far above any reachable
depth). -/

inductive Rx where
  | eps
  | lit (c : Char)
  | cls (neg : Bool) (items : List (Char × Char))
  | anyNC
  | cat (a b : Rx)
  | alt (a b : Rx)
  | star (lazy : Bool) (a : Rx)
  | opt (lazy : Bool) (a : Rx)
  | grp (idx : Nat) (a : Rx)
  | bol (multiline : Bool)
  | eol (multiline : Bool)
  deriving Repr

/-- ASCII lower-casing, the case folding relevant to this code base. -/
def asciiToLower (c : Char) : Char :=
  if 'A' ≤ c && c ≤ 'Z' then Char.ofNat (c.toNat + 32) else c

/-- ASCII upper-casing. -/
def asciiToUpper (c : Char) : Char :=
  if 'a' ≤ c && c ≤ 'z' then Char.ofNat (c.toNat - 32) else c

/-- Case-insensitive character comparison under the `i` flag. -/
def charEqCI (ci : Bool) (a b : Char) : Bool :=
  a == b || (ci && asciiToLower a == asciiToLower b)

/-- ECMAScript line terminators (`\n`, `\r`, U+2028, U+2029). -/
def isLineTerm (c : Char) : Bool :=
  c == '\n' || c == '\r' || c == '\u2028' || c == '\u2029'

def inRanges (c : Char) (items : List (Char × Char)) : Bool :=
  items.any (fun r => r.1 ≤ c && c ≤ r.2)

/-- Class membership with canonicalisation under the `i` flag. -/
def clsMatch (ci neg : Bool) (items : List (Char × Char)) (c : Char) : Bool :=
  let base := inRanges c items ||
    (ci && (inRanges (asciiToLower c) items || inRanges (asciiToUpper c) items))
  if neg then !base else base

/-- Captures: most recent write first, `(group, (start, stop))`. -/
abbrev Caps := List (Nat × Nat × Nat)

/-- The backtracking matcher.  `k` is the continuation receiving the
position and captures after the current node has matched. -/
def reM (ci : Bool) (s : List Char) :
    Nat → Rx → Nat → Caps → (Nat → Caps → Option (Nat × Caps)) → Option (Nat × Caps)
  | 0, _, _, _, _ => none
  | fuel + 1, r, pos, caps, k =>
    match r with
    | .eps => k pos caps
    | .lit c =>
      (match s.get? pos with
       | some c2 => if charEqCI ci c c2 then k (pos + 1) caps else none
       | none => none)
    | .cls neg items =>
      (match s.get? pos with
       | some c2 => if clsMatch ci neg items c2 then k (pos + 1) caps else none
       | none => none)
    | .anyNC =>
      (match s.get? pos with
       | some c2 => if isLineTerm c2 then none else k (pos + 1) caps
       | none => none)
    | .cat a b => reM ci s fuel a pos caps (fun p2 c2 => reM ci s fuel b p2 c2 k)
    | .alt a b =>
      (match reM ci s fuel a pos caps k with
       | some r2 => some r2
       | none => reM ci s fuel b pos caps k)
    | .star lz a =>
      if lz then
        match k pos caps with
        | some r2 => some r2
        | none =>
          reM ci s fuel a pos caps (fun p2 c2 =>
            if p2 == pos then none else reM ci s fuel (.star lz a) p2 c2 k)
      else
        match reM ci s fuel a pos caps (fun p2 c2 =>
            if p2 == pos then none else reM ci s fuel (.star lz a) p2 c2 k) with
        | some r2 => some r2
        | none => k pos caps
    | .opt lz a =>
      if lz then
        match k pos caps with
        | some r2 => some r2
        | none => reM ci s fuel a pos caps k
      else
        match reM ci s fuel a pos caps k with
        | some r2 => some r2
        | none => k pos caps
    | .grp i a => reM ci s fuel a pos caps (fun p2 c2 => k p2 ((i, pos, p2) :: c2))
    | .bol ml =>
      if pos == 0 ||
          (ml && (match s.get? (pos - 1) with
                  | some c2 => isLineTerm c2
                  | none => false)) then k pos caps else none
    | .eol ml =>
      if pos == s.length ||
          (ml && (match s.get? pos with
                  | some c2 => isLineTerm c2
                  | none => false)) then k pos caps else none

/-- Structural size of a pattern, used to bound the search depth. -/
def rxSize : Rx → Nat
  | .eps => 1
  | .lit _ => 1
  | .cls _ _ => 1
  | .anyNC => 1
  | .cat a b => rxSize a + rxSize b + 1
  | .alt a b => rxSize a + rxSize b + 1
  | .star _ a => rxSize a + 1
  | .opt _ a => rxSize a + 1
  | .grp _ a => rxSize a + 1
  | .bol _ => 1
  | .eol _ => 1

/-- One match: start, stop, captures. -/
structure RMatch where
  start : Nat
  stop : Nat
  caps : Caps
  deriving Repr

/-- Attempt at successive start positions (leftmost match at or after
`pos`), like `RegExp.prototype.exec` scanning from `lastIndex`. -/
def execFrom (ci : Bool) (rx : Rx) (s : List Char) : Nat → Nat → Option RMatch
  | _, 0 => none
  | pos, fuel + 1 =>
    match reM ci s ((s.length + 2) * (rxSize rx + 2)) rx pos [] (fun p c => some (p, c)) with
    | some (e, caps) => some ⟨pos, e, caps⟩
    | none => if s.length ≤ pos then none else execFrom ci rx s (pos + 1) fuel

/-- The `while ((match = re.exec(content)) !== null)` loop of a global
regex: collect successive matches, resuming at each match end (every
pattern in the source matches at least one character, so `lastIndex`
always advances; the `+ 1` guard is unreachable for them). -/
def execAllAux (ci : Bool) (rx : Rx) (s : List Char) : Nat → Nat → List RMatch
  | _, 0 => []
  | pos, fuel + 1 =>
    match execFrom ci rx s pos (s.length + 1 - pos) with
    | none => []
    | some m =>
      let next := if m.stop == m.start then m.stop + 1 else m.stop
      m :: execAllAux ci rx s next fuel

/-- All matches of a global regex over a string. -/
def execAllStr (ci : Bool) (rx : Rx) (str : String) : List RMatch :=
  execAllAux ci rx str.data 0 (str.data.length + 2)

/-- Captured group `i` of a match (`undefined` when the group did not
participate). -/
def capStr (str : String) (m : RMatch) (i : Nat) : Option String :=
  (m.caps.find? (fun t => t.1 == i)).map
    (fun t => ⟨(str.data.drop t.2.1).take (t.2.2 - t.2.1)⟩)

/-- Captured group with the empty string for `undefined`. -/
def capStrD (str : String) (m : RMatch) (i : Nat) : String :=
  (capStr str m i).getD ""

/-- Removes the spans of the given matches from a string
(`String.prototype.replace` with an empty replacement). -/
def cutSpansAux (spans : List (Nat × Nat)) : List Char → Nat → List Char
  | [], _ => []
  | c :: t, i =>
    if spans.any (fun sp => sp.1 ≤ i && i < sp.2) then cutSpansAux spans t (i + 1)
    else c :: cutSpansAux spans t (i + 1)

/-- Global replace-with-empty `str.replace(rx-g, '')`. -/
def replaceAllRx (ci : Bool) (rx : Rx) (str : String) : String :=
  ⟨cutSpansAux ((execAllStr ci rx str).map (fun m => (m.start, m.stop))) str.data 0⟩

/-- Single replace-with-empty `str.replace(rx, '')` (no `g` flag). -/
def replaceFirstRx (ci : Bool) (rx : Rx) (str : String) : String :=
  match execFrom ci rx str.data 0 (str.data.length + 1) with
  | some m => ⟨cutSpansAux [(m.start, m.stop)] str.data 0⟩
  | none => str

/-! ## Pattern construction helpers -/

/-- Literal string as a pattern. -/
def rxStr (cs : String) : Rx := cs.data.foldr (fun c acc => .cat (.lit c) acc) .eps

/-- Sequencing of a pattern list. -/
def rxSeq (l : List Rx) : Rx := l.foldr .cat .eps

/-- Ordered alternation of a pattern list. -/
def rxAltList : List Rx → Rx
  | [] => .eps
  | [x] => x
  | x :: rest => .alt x (rxAltList rest)

/-- Greedy `+`. -/
def rxPlus (a : Rx) : Rx := .cat a (.star false a)

/-- The ECMAScript `\w` class. -/
def wordCls : Rx := .cls false [('a', 'z'), ('A', 'Z'), ('0', '9'), ('_', '_')]

/-- Ranges of the ECMAScript `\s` class. -/
def wsRanges : List (Char × Char) :=
  [('\t', '\r'), (' ', ' '), ('\xa0', '\xa0'), ('\u1680', '\u1680'),
   ('\u2000', '\u200a'), ('\u2028', '\u2029'), ('\u202f', '\u202f'),
   ('\u205f', '\u205f'), ('\u3000', '\u3000'), ('\ufeff', '\ufeff')]

/-- The ECMAScript `\s` class. -/
def wsCls : Rx := .cls false wsRanges

/-- The `[\s\S]` class: any character. -/
def allCls : Rx := .cls false [(Char.ofNat 0, Char.ofNat 1114111)]

/-! ## The extraction patterns of `ChatManager` (`chat.ts`)

Each definition transcribes one regular expression literal of the source,
construct by construct. -/

/-- The `` [`"] `` class (optional surrounding quote of a path). -/
def quoteCls : Rx := .cls false [('`', '`'), ('"', '"')]

/-- The `` [^`"\n] `` class (path characters). -/
def pathCharCls : Rx := .cls true [('`', '`'), ('"', '"'), ('\n', '\n')]

/-- The `[^\n]` class. -/
def notNlCls : Rx := .cls true [('\n', '\n')]

/-- The shared recognised-extension alternation
`(js|ts|html|css|py|java|cpp|c|h|php|rb|go|rs|swift|kt|dart|vue|jsx|tsx|json|xml|yaml|yml|md|txt|sh|bat|ps1)`. -/
def extAlt : Rx := rxAltList
  (["js", "ts", "html", "css", "py", "java", "cpp", "c", "h", "php", "rb", "go",
    "rs", "swift", "kt", "dart", "vue", "jsx", "tsx", "json", "xml", "yaml",
    "yml", "md", "txt", "sh", "bat", "ps1"].map rxStr)

/-- The trailing fenced-block tail shared by several patterns:
`` ```[\w]*\s*\n?([\s\S]*?)``` `` with the body captured as group `g`. -/
def fenceTail (g : Nat) : Rx := rxSeq
  [rxStr "```", .star false wordCls, .star false wsCls, .opt false (.lit '\n'),
   .grp g (.star true allCls), rxStr "```"]

/-- Pattern 1 `operationPattern` (`/gi`):
`\*\*FILE OPERATION:\s*(CREATE|EDIT|DELETE)\*\*\s*\n?Path:\s*([^\n]+)\s*\n?(```[\w]*\s*\n?([\s\S]*?)```)?`. -/
def operationPattern : Rx := rxSeq
  [rxStr "**FILE OPERATION:", .star false wsCls,
   .grp 1 (rxAltList [rxStr "CREATE", rxStr "EDIT", rxStr "DELETE"]),
   rxStr "**", .star false wsCls, .opt false (.lit '\n'),
   rxStr "Path:", .star false wsCls,
   .grp 2 (rxPlus notNlCls),
   .star false wsCls, .opt false (.lit '\n'),
   .opt false (.grp 3 (rxSeq
     [rxStr "```", .star false wordCls, .star false wsCls, .opt false (.lit '\n'),
      .grp 4 (.star true allCls), rxStr "```"]))]

/-- The common directive-phrase shape of patterns 2, 3 and 7:
`VERBS\s+NOUNS:?\s*[`"]?([^`"\n]+)[`"]?\s*[\n\r]*```[\w]*\s*\n?([\s\S]*?)``` `. -/
def directivePattern (verbs nouns : List String) : Rx := rxSeq
  [rxAltList (verbs.map rxStr), rxPlus wsCls, rxAltList (nouns.map rxStr),
   .opt false (.lit ':'), .star false wsCls,
   .opt false quoteCls, .grp 1 (rxPlus pathCharCls), .opt false quoteCls,
   .star false wsCls, .star false (.cls false [('\n', '\n'), ('\r', '\r')]),
   fenceTail 2]

/-- Pattern 2 `createPattern` (`/gi`). -/
def createPattern : Rx := directivePattern ["create", "add", "new"] ["file", "a file"]

/-- Pattern 3 `editPattern` (`/gi`). -/
def editPattern : Rx := directivePattern ["edit", "update", "modify"] ["file", "a file"]

/-- Pattern 4 `deletePattern` (`/gi`):
`(?:delete|remove)\s+(?:file|a file):?\s*[`"]?([^`"\n]+)[`"]?`. -/
def deletePattern : Rx := rxSeq
  [rxAltList [rxStr "delete", rxStr "remove"], rxPlus wsCls,
   rxAltList [rxStr "file", rxStr "a file"],
   .opt false (.lit ':'), .star false wsCls,
   .opt false quoteCls, .grp 1 (rxPlus pathCharCls), .opt false quoteCls]

/-- Pattern 5 `headingPattern` (`/gmi`):
`^#+\s*([^\n]+\.(EXT))\s*\n+```[\w]*\s*\n?([\s\S]*?)``` `. -/
def headingPattern : Rx := rxSeq
  [.bol true, rxPlus (.lit '#'), .star false wsCls,
   .grp 1 (rxSeq [rxPlus notNlCls, .lit '.', .grp 2 extAlt]),
   .star false wsCls, rxPlus (.lit '\n'),
   fenceTail 3]

/-- Pattern 6 `inlinePattern` (`/gi`):
`` `([^`]+\.(EXT))`[:\s]*\n*```[\w]*\s*\n?([\s\S]*?)``` ``. -/
def inlinePattern : Rx := rxSeq
  [.lit '`',
   .grp 1 (rxSeq [rxPlus (.cls true [('`', '`')]), .lit '.', .grp 2 extAlt]),
   .lit '`',
   .star false (.cls false ((':', ':') :: wsRanges)),
   .star false (.lit '\n'),
   fenceTail 3]

/-- Pattern 7 `savePattern` (`/gi`). -/
def savePattern : Rx := directivePattern ["save", "write"] ["to", "as", "file", "this as"]

/-- The `loosePattern` (`/gim`):
`(?:^|\n)([^\n]*(?:create|make|add|build|generate|write).*?([a-zA-Z0-9_-]+\.[a-zA-Z0-9]+).*?)(?:\n|\s)*```[\w]*\s*\n?([\s\S]*?)``` `. -/
def loosePattern : Rx := rxSeq
  [.alt (.bol true) (.lit '\n'),
   .grp 1 (rxSeq
     [.star false notNlCls,
      rxAltList [rxStr "create", rxStr "make", rxStr "add", rxStr "build",
        rxStr "generate", rxStr "write"],
      .star true .anyNC,
      .grp 2 (rxSeq
        [rxPlus (.cls false [('a', 'z'), ('A', 'Z'), ('0', '9'), ('_', '_'), ('-', '-')]),
         .lit '.',
         rxPlus (.cls false [('a', 'z'), ('A', 'Z'), ('0', '9')])]),
      .star true .anyNC]),
   .star false (.alt (.lit '\n') wsCls),
   fenceTail 3]

/-! ## Content cleanup (`ChatManager.cleanCodeContent`) -/

/-- Replace 1: `/^```[\w]*\s*\n?/gm`. -/
def cleanRx1 : Rx := rxSeq
  [.bol true, rxStr "```", .star false wordCls, .star false wsCls, .opt false (.lit '\n')]

/-- Replace 2: `/\n?```\s*$/gm`. -/
def cleanRx2 : Rx := rxSeq
  [.opt false (.lit '\n'), rxStr "```", .star false wsCls, .eol true]

/-- Replace 3: `/^\/\/ filename:.*$/gmi`. -/
def cleanRx3 : Rx := rxSeq
  [.bol true, rxStr "// filename:", .star false .anyNC, .eol true]

/-- Replace 4: `/^# .*\.(EXT)\s*$/gmi`. -/
def cleanRx4 : Rx := rxSeq
  [.bol true, rxStr "# ", .star false .anyNC, .lit '.', .grp 1 extAlt,
   .star false wsCls, .eol true]

/-- Replace 5: `/^\/\/ file: .*$/gmi`. -/
def cleanRx5 : Rx := rxSeq
  [.bol true, rxStr "// file: ", .star false .anyNC, .eol true]

/-- Replace 6: `/^<!-- file: .* -->$/gmi`. -/
def cleanRx6 : Rx := rxSeq
  [.bol true, rxStr "<!-- file: ", .star false .anyNC, rxStr " -->", .eol true]

/-- Replace 7: `/^\s*\n+/` (no flags — input start only). -/
def cleanRx7 : Rx := rxSeq [.bol false, .star false wsCls, rxPlus (.lit '\n')]

/-- Replace 8: `/\n+\s*$/` (no flags — input end only). -/
def cleanRx8 : Rx := rxSeq [rxPlus (.lit '\n'), .star false wsCls, .eol false]

/-- Embedding of `ChatManager.cleanCodeContent` (`chat.ts`): strips fence
delimiters, filename-comment lines and surrounding blank lines from an
extracted code body. -/
def cleanCodeContent (content : String) : String :=
  -- `if (!content) return '';`
  if content.isEmpty then ""
  else
    let s1 := replaceAllRx false cleanRx1 content
    let s2 := replaceAllRx false cleanRx2 s1
    let s3 := replaceAllRx true cleanRx3 s2
    let s4 := replaceAllRx true cleanRx4 s3
    let s5 := replaceAllRx true cleanRx5 s4
    let s6 := replaceAllRx true cleanRx6 s5
    let s7 := replaceFirstRx false cleanRx7 s6
    let s8 := replaceFirstRx false cleanRx8 s7
    jsTrim s8

/-! ## The extraction strategies (`extractFileOperationsFromMarkdown`,
`extractLoosePatterns`) -/

/-- ASCII lower-casing of a string (`String.prototype.toLowerCase` for
the ASCII operation labels this code handles). -/
def jsToLower (s : String) : String := ⟨s.data.map asciiToLower⟩

/-- The `match[k] ? cleanCodeContent(match[k]) : ''` idiom: an absent or
empty (falsy) capture yields the empty string. -/
def cleanedCapture (str : String) (m : RMatch) (k : Nat) : String :=
  match capStr str m k with
  | some b => if b.isEmpty then "" else cleanCodeContent b
  | none => ""

/-- Pattern-1 loop body: operation from the label, path from group 2
(trimmed, quotes stripped), content from group 4; `content` is set to
`undefined` (field absent) when the cleaned body is empty
(`content: fileContent || undefined`). -/
def pattern1Ops (content : String) : List Json :=
  (execAllStr true operationPattern content).filterMap (fun m =>
    let operation := jsToLower (capStrD content m 1) ++ "_file"
    let path := stripQuoteChars (jsTrim (capStrD content m 2))
    let fileContent := cleanedCapture content m 4
    if isValidFilePath path then
      some (.obj ([("operation", .str operation), ("path", .str path)] ++
        (if fileContent.isEmpty then [] else [("content", .str fileContent)])))
    else none)

/-- Loop body shared by the create/edit/save patterns: path from group 1
(trimmed, quotes stripped), content from group 2 (always present). -/
def directiveOpsOf (rx : Rx) (opName : String) (content : String) : List Json :=
  (execAllStr true rx content).filterMap (fun m =>
    let path := stripQuoteChars (jsTrim (capStrD content m 1))
    let fileContent := cleanedCapture content m 2
    if isValidFilePath path then
      some (.obj [("operation", .str opName), ("path", .str path),
        ("content", .str fileContent)])
    else none)

/-- Pattern-2 matches (`create_file`). -/
def pattern2Ops (content : String) : List Json :=
  directiveOpsOf createPattern "create_file" content

/-- Pattern-3 matches (`edit_file`). -/
def pattern3Ops (content : String) : List Json :=
  directiveOpsOf editPattern "edit_file" content

/-- Pattern-4 matches (`delete_file`, no content field). -/
def pattern4Ops (content : String) : List Json :=
  (execAllStr true deletePattern content).filterMap (fun m =>
    let path := stripQuoteChars (jsTrim (capStrD content m 1))
    if isValidFilePath path then
      some (.obj [("operation", .str "delete_file"), ("path", .str path)])
    else none)

/-- Pattern-5 (heading) matches: implicit creates, path from group 1
(trimmed, quotes stripped), content from group 3. -/
def pattern5Ops (content : String) : List Json :=
  (execAllStr true headingPattern content).filterMap (fun m =>
    let path := stripQuoteChars (jsTrim (capStrD content m 1))
    let fileContent := cleanedCapture content m 3
    if isValidFilePath path then
      some (.obj [("operation", .str "create_file"), ("path", .str path),
        ("content", .str fileContent)])
    else none)

/-- Pattern-6 (inline-code) matches: implicit creates; the path is only
trimmed — no quote stripping on this branch. -/
def pattern6Ops (content : String) : List Json :=
  (execAllStr true inlinePattern content).filterMap (fun m =>
    let path := jsTrim (capStrD content m 1)
    let fileContent := cleanedCapture content m 3
    if isValidFilePath path then
      some (.obj [("operation", .str "create_file"), ("path", .str path),
        ("content", .str fileContent)])
    else none)

/-- Pattern-7 (save/write) matches. -/
def pattern7Ops (content : String) : List Json :=
  directiveOpsOf savePattern "create_file" content

/-- Embedding of `extractFileOperationsFromMarkdown` (`chat.ts`): the
preferred canonical-block pattern first; if it produced nothing, the
three directive patterns accumulate into the same list; if the list is
still empty, the heading, inline and save patterns accumulate. -/
def extractFileOperationsFromMarkdown (content : String) : List Json :=
  let operations := pattern1Ops content
  let operations :=
    if operations.isEmpty then
      operations ++ pattern2Ops content ++ pattern3Ops content ++ pattern4Ops content
    else operations
  let operations :=
    if operations.isEmpty then
      operations ++ pattern5Ops content ++ pattern6Ops content ++ pattern7Ops content
    else operations
  operations

/-- The verb test `/(?:create|make|add|build|generate|write)/i.test(contextLine)`:
case-insensitive substring search. -/
def looseVerbTest (s : String) : Bool :=
  let l := jsToLower s
  strContains l "create" || strContains l "make" || strContains l "add" ||
  strContains l "build" || strContains l "generate" || strContains l "write"

/-- Embedding of `extractLoosePatterns` (`chat.ts`): the last-resort
pattern, kept only when the context line holds a creation verb. -/
def extractLoosePatterns (content : String) : List Json :=
  (execAllStr true loosePattern content).filterMap (fun m =>
    let contextLine := capStrD content m 1
    let potentialPath := capStrD content m 2
    let fileContent := cleanedCapture content m 3
    if isValidFilePath potentialPath && looseVerbTest contextLine then
      some (.obj [("operation", .str "create_file"), ("path", .str potentialPath),
        ("content", .str fileContent)])
    else none)

/-- Source of the finally adopted operation list, the
`operationSource` variable of `executeFileOperations`. -/
inductive OpSource where
  | json
  | markdown
  | loose
  deriving DecidableEq, Repr

/-- Embedding of the strategy cascade of `executeFileOperations`
(`chat.ts` lines 622-648): the structured-payload parse when the trimmed
text starts with a brace, then markdown extraction, then the loose
fallback. -/
def parseOps (content : String) : List Json × OpSource :=
  let jsonOps : List Json :=
    if strStartsWith (jsTrim content) "\x7b" then
      match jsonParse content with
      | some v =>
        -- `parsedContent && typeof parsedContent === 'object' && Array.isArray(parsedContent.operations)`
        if jsTruthy (some v) && jsTypeofObject v then
          match jget v "operations" with
          | some (.arr l) => l
          | _ => []
        else []
      | none => []
    else []
  if !jsonOps.isEmpty then (jsonOps, .json)
  else
    let mdOps := extractFileOperationsFromMarkdown content
    if !mdOps.isEmpty then (mdOps, .markdown)
    else (extractLoosePatterns content, .loose)

/-- The whole text-pattern phase (strategies 2 and 3 of
`executeFileOperations`): markdown extraction with the loose fallback. -/
def textPhaseOps (content : String) : List Json :=
  let md := extractFileOperationsFromMarkdown content
  if md.isEmpty then extractLoosePatterns content else md

/-- Embedding of `executeFileOperations` from the raw response text:
content guard, strategy cascade, then the validation/confirmation/backup/
execution pipeline. -/
def executeFileOperations (st : AppState) (content : String) (ans : Bool) : ExecResult :=
  -- `if (!content || typeof content !== 'string' || content.trim().length === 0)`
  if (jsTrim content).isEmpty then ⟨st, false, false, false, [], []⟩
  else runOps st (parseOps content).1 ans

/-! ## Basic facts about the workspace index and the pipeline -/

theorem byPathHas_iff (ws : Workspace) (p : String) :
    byPathHas ws p = true ↔ p ∈ wsPaths ws := by
  simp [byPathHas, wsPaths, List.any_eq_true, List.mem_map]

theorem byPathHas_false_iff (ws : Workspace) (p : String) :
    byPathHas ws p = false ↔ p ∉ wsPaths ws := by
  rw [← byPathHas_iff]
  cases byPathHas ws p <;> simp

theorem validBatch_false_of_mem {op : Json} {ops : List Json}
    (hop : op ∈ ops) (h : validOp op = false) : validBatch ops = false := by
  cases hval : validBatch ops with
  | false => rfl
  | true =>
    rw [validBatch, List.all_eq_true] at hval
    rw [hval op hop] at h
    exact absurd h (by simp)

theorem runOps_of_invalid (st : AppState) (ops : List Json) (ans : Bool)
    (hne : ops ≠ []) (h : validBatch ops = false) :
    runOps st ops ans = ⟨st, false, false, false, [], []⟩ := by
  rw [runOps, if_neg (by simp [hne]), if_pos (by simp [h])]

/-! ## Claim C1 — the structured payload strategy -/

/-- C1 counterexample: a well-formed JSON object whose `operations` array
is empty.  The parse cascade falls through to the text strategies — the
directive-phrase delete pattern fires on text inside a JSON string — so
the parser neither returns the encoded (empty) array nor stays on the
JSON strategy. -/
theorem structured_payload_counterexample :
    strStartsWith (jsTrim "\x7b\"operations\":[],\"a\":\"delete file: a.txt\"\x7d") "\x7b" = true ∧
    jsonParse "\x7b\"operations\":[],\"a\":\"delete file: a.txt\"\x7d"
      = some (.obj [("operations", .arr []), ("a", .str "delete file: a.txt")]) ∧
    jget (.obj [("operations", .arr []), ("a", .str "delete file: a.txt")]) "operations"
      = some (.arr []) ∧
    parseOps "\x7b\"operations\":[],\"a\":\"delete file: a.txt\"\x7d"
      = ([.obj [("operation", .str "delete_file"), ("path", .str "a.txt")]],
         OpSource.markdown) ∧
    (parseOps "\x7b\"operations\":[],\"a\":\"delete file: a.txt\"\x7d").2 ≠ OpSource.json :=
  ⟨rfl, rfl, rfl, rfl, by decide⟩

/-- C1 as amended: for every input whose trimmed text starts with a brace
and parses as JSON to an object with a non-empty `operations` array, the
parser returns exactly that array, in order, via the JSON strategy and
without consulting the text strategies.  (With an empty `operations`
array the cascade falls through to the text-pattern strategies; see the
counterexample.) -/
theorem structured_payload_wins (content : String) (v : Json) (l : List Json)
    (hstart : strStartsWith (jsTrim content) "\x7b" = true)
    (hparse : jsonParse content = some v)
    (hops : jget v "operations" = some (.arr l))
    (hne : l ≠ []) :
    parseOps content = (l, OpSource.json) := by
  have hobj : ∃ fields, v = .obj fields := by
    cases v with
    | obj fields => exact ⟨fields, rfl⟩
    | null => simp [jget] at hops
    | bool b => simp [jget] at hops
    | num s => simp [jget] at hops
    | str s => simp [jget] at hops
    | arr xs => simp [jget] at hops
  rcases hobj with ⟨fields, rfl⟩
  have hl : l.isEmpty = false := by simp [List.isEmpty_iff, hne]
  rw [parseOps]
  simp only [hstart, if_true, hparse, hops, jsTruthy, jsTypeofObject, Bool.and_self, hl]
  simp

/-- Witness for `structured_payload_wins` at a one-element payload. -/
theorem structured_payload_wins_witness :
    strStartsWith
      (jsTrim "\x7b\"operations\":[\x7b\"operation\":\"delete_file\",\"path\":\"a.txt\"\x7d]\x7d")
      "\x7b" = true ∧
    jsonParse "\x7b\"operations\":[\x7b\"operation\":\"delete_file\",\"path\":\"a.txt\"\x7d]\x7d"
      = some (.obj [("operations",
          .arr [.obj [("operation", .str "delete_file"), ("path", .str "a.txt")]])]) ∧
    parseOps "\x7b\"operations\":[\x7b\"operation\":\"delete_file\",\"path\":\"a.txt\"\x7d]\x7d"
      = ([.obj [("operation", .str "delete_file"), ("path", .str "a.txt")]],
         OpSource.json) := by
  refine ⟨rfl, rfl, ?_⟩
  exact structured_payload_wins
    "\x7b\"operations\":[\x7b\"operation\":\"delete_file\",\"path\":\"a.txt\"\x7d]\x7d"
    (.obj [("operations",
      .arr [.obj [("operation", .str "delete_file"), ("path", .str "a.txt")]])])
    [.obj [("operation", .str "delete_file"), ("path", .str "a.txt")]]
    rfl rfl rfl (by simp)

/-! ## Claim C6 — ordering of the text-pattern strategies -/

/-- Ordered-fallback extraction as the claim describes it, for
comparison with the source behaviour: the spec-numbered strategies 2-7 —
canonical blocks, directive phrases, headings, inline code, save/write,
loose — run strictly in order and the first strategy producing at least
one operation wins, with no merging across strategies. -/
def specOrderedTextExtraction (content : String) : List Json :=
  let s2 := pattern1Ops content
  if !s2.isEmpty then s2
  else
    let s3 := pattern2Ops content ++ pattern3Ops content ++ pattern4Ops content
    if !s3.isEmpty then s3
    else
      let s4 := pattern5Ops content
      if !s4.isEmpty then s4
      else
        let s5 := pattern6Ops content
        if !s5.isEmpty then s5
        else
          let s6 := pattern7Ops content
          if !s6.isEmpty then s6
          else extractLoosePatterns content

/-- C6 counterexample: a text carrying both a heading-based file block
and an inline-code file block.  The source runs the heading, inline and
save patterns inside one emptiness guard and concatenates their results,
so the returned list merges operations of two different strategies,
unlike the claim's first-non-empty-strategy-wins description. -/
theorem strategy_merge_counterexample :
    pattern1Ops "# a.js\n```\nx\n```\n`b.js`:\n```\ny\n```" = [] ∧
    pattern2Ops "# a.js\n```\nx\n```\n`b.js`:\n```\ny\n```" ++
      pattern3Ops "# a.js\n```\nx\n```\n`b.js`:\n```\ny\n```" ++
      pattern4Ops "# a.js\n```\nx\n```\n`b.js`:\n```\ny\n```" = [] ∧
    pattern5Ops "# a.js\n```\nx\n```\n`b.js`:\n```\ny\n```"
      = [.obj [("operation", .str "create_file"), ("path", .str "a.js"),
          ("content", .str "x")]] ∧
    pattern6Ops "# a.js\n```\nx\n```\n`b.js`:\n```\ny\n```"
      = [.obj [("operation", .str "create_file"), ("path", .str "b.js"),
          ("content", .str "y")]] ∧
    textPhaseOps "# a.js\n```\nx\n```\n`b.js`:\n```\ny\n```"
      = [.obj [("operation", .str "create_file"), ("path", .str "a.js"),
          ("content", .str "x")],
         .obj [("operation", .str "create_file"), ("path", .str "b.js"),
          ("content", .str "y")]] ∧
    specOrderedTextExtraction "# a.js\n```\nx\n```\n`b.js`:\n```\ny\n```"
      = [.obj [("operation", .str "create_file"), ("path", .str "a.js"),
          ("content", .str "x")]] ∧
    textPhaseOps "# a.js\n```\nx\n```\n`b.js`:\n```\ny\n```"
      ≠ specOrderedTextExtraction "# a.js\n```\nx\n```\n`b.js`:\n```\ny\n```" := by
  refine ⟨rfl, rfl, rfl, rfl, rfl, rfl, ?_⟩
  intro h
  rw [show textPhaseOps "# a.js\n```\nx\n```\n`b.js`:\n```\ny\n```"
      = [.obj [("operation", Json.str "create_file"), ("path", Json.str "a.js"),
          ("content", Json.str "x")],
         .obj [("operation", Json.str "create_file"), ("path", Json.str "b.js"),
          ("content", Json.str "y")]] from rfl,
    show specOrderedTextExtraction "# a.js\n```\nx\n```\n`b.js`:\n```\ny\n```"
      = [.obj [("operation", Json.str "create_file"), ("path", Json.str "a.js"),
          ("content", Json.str "x")]] from rfl] at h
  simp at h

/-- C6 as amended: when the canonical-block pattern (spec strategy 2)
yields nothing, the three directive-phrase scans (spec strategy 3) run
together and their concatenation wins when non-empty; otherwise the
heading, inline-code and save/write scans (spec strategies 4-6) run
together and their concatenation is returned; the loose fallback (spec
strategy 7) runs only when every other strategy yielded nothing.
Results merge across strategies only inside the two tiers 3 and 4-6,
never between tiers. -/
theorem extraction_tiers (content : String) :
    (pattern1Ops content ≠ [] →
      extractFileOperationsFromMarkdown content = pattern1Ops content) ∧
    (pattern1Ops content = [] →
      pattern2Ops content ++ pattern3Ops content ++ pattern4Ops content ≠ [] →
      extractFileOperationsFromMarkdown content
        = pattern2Ops content ++ pattern3Ops content ++ pattern4Ops content) ∧
    (pattern1Ops content = [] →
      pattern2Ops content ++ pattern3Ops content ++ pattern4Ops content = [] →
      extractFileOperationsFromMarkdown content
        = pattern5Ops content ++ pattern6Ops content ++ pattern7Ops content) ∧
    (extractFileOperationsFromMarkdown content ≠ [] →
      textPhaseOps content = extractFileOperationsFromMarkdown content) ∧
    (extractFileOperationsFromMarkdown content = [] →
      textPhaseOps content = extractLoosePatterns content) := by
  refine ⟨?_, ?_, ?_, ?_, ?_⟩
  · intro h1
    have hb : (pattern1Ops content).isEmpty = false := by simp [List.isEmpty_iff, h1]
    rw [extractFileOperationsFromMarkdown]
    simp [hb]
  · intro h1 h2
    have hb : (pattern2Ops content ++ pattern3Ops content ++ pattern4Ops content).isEmpty
        = false := by
      cases hbe : (pattern2Ops content ++ pattern3Ops content ++ pattern4Ops content).isEmpty with
      | false => rfl
      | true => exact absurd (List.isEmpty_iff.mp hbe) h2
    rw [extractFileOperationsFromMarkdown, h1]
    simp only [List.isEmpty_nil, if_true, List.nil_append]
    rw [hb]
    simp
  · intro h1 h2
    rw [extractFileOperationsFromMarkdown, h1]
    simp only [List.isEmpty_nil, if_true, List.nil_append]
    rw [show pattern2Ops content ++ pattern3Ops content ++ pattern4Ops content
        = ([] : List Json) from h2]
    simp
  · intro h
    have hb : (extractFileOperationsFromMarkdown content).isEmpty = false := by
      simp [List.isEmpty_iff, h]
    rw [textPhaseOps, hb]
    simp
  · intro h
    rw [textPhaseOps, h]
    simp

/-- Witness for `extraction_tiers` at the heading-plus-inline text: the
first two tiers are empty there, so the returned list is the
concatenation of the third tier's scans, and the loose fallback does not
run. -/
theorem extraction_tiers_witness :
    pattern1Ops "# a.js\n```\nx\n```\n`b.js`:\n```\ny\n```" = [] ∧
    pattern2Ops "# a.js\n```\nx\n```\n`b.js`:\n```\ny\n```" ++
      pattern3Ops "# a.js\n```\nx\n```\n`b.js`:\n```\ny\n```" ++
      pattern4Ops "# a.js\n```\nx\n```\n`b.js`:\n```\ny\n```" = [] ∧
    extractFileOperationsFromMarkdown "# a.js\n```\nx\n```\n`b.js`:\n```\ny\n```"
      = pattern5Ops "# a.js\n```\nx\n```\n`b.js`:\n```\ny\n```" ++
        pattern6Ops "# a.js\n```\nx\n```\n`b.js`:\n```\ny\n```" ++
        pattern7Ops "# a.js\n```\nx\n```\n`b.js`:\n```\ny\n```" ∧
    extractFileOperationsFromMarkdown "# a.js\n```\nx\n```\n`b.js`:\n```\ny\n```" ≠ [] ∧
    textPhaseOps "# a.js\n```\nx\n```\n`b.js`:\n```\ny\n```"
      = extractFileOperationsFromMarkdown "# a.js\n```\nx\n```\n`b.js`:\n```\ny\n```" := by
  have hne : extractFileOperationsFromMarkdown "# a.js\n```\nx\n```\n`b.js`:\n```\ny\n```" ≠ [] := by
    intro h
    rw [show extractFileOperationsFromMarkdown "# a.js\n```\nx\n```\n`b.js`:\n```\ny\n```"
        = [.obj [("operation", Json.str "create_file"), ("path", Json.str "a.js"),
            ("content", Json.str "x")],
           .obj [("operation", Json.str "create_file"), ("path", Json.str "b.js"),
            ("content", Json.str "y")]] from rfl] at h
    simp at h
  refine ⟨rfl, rfl, ?_, hne, ?_⟩
  · exact (extraction_tiers "# a.js\n```\nx\n```\n`b.js`:\n```\ny\n```").2.2.1 rfl rfl
  · exact (extraction_tiers "# a.js\n```\nx\n```\n`b.js`:\n```\ny\n```").2.2.2.1 hne

/-! ## Claim C10 — the collision-rename helper -/

/-- C10: for every workspace (finitely many files, as a list) and every
input path, `handleFileNameConflicts` terminates with a path that is not
present in the path index, and returns the input unchanged when it is
already unused.  Termination of the source's `while` loop is witnessed by
the loop exiting within the provided fuel: the returned candidate is
found free, which is exactly the loop's exit condition. -/
theorem handleFileNameConflicts_terminates_fresh (ws : Workspace) (p : String) :
    handleFileNameConflicts ws p ∉ wsPaths ws ∧
    (byPathHas ws p = false → handleFileNameConflicts ws p = p) := by
  by_cases hcol : byPathHas ws p = true
  · refine ⟨(handleFileNameConflicts_fresh ws p hcol).1, ?_⟩
    intro hfalse
    rw [hcol] at hfalse
    exact absurd hfalse (by simp)
  · have hfalse : byPathHas ws p = false := by
      cases h : byPathHas ws p
      · rfl
      · exact absurd h hcol
    have heq : handleFileNameConflicts ws p = p := by
      rw [handleFileNameConflicts, hfalse]
      simp
    refine ⟨?_, fun _ => heq⟩
    rw [heq]
    exact (byPathHas_false_iff ws p).mp hfalse

/-- Witness instantiating `handleFileNameConflicts_terminates_fresh` on a
workspace holding `a.txt`: the fresh-path conclusion and the
unused-path-unchanged conclusion are both discharged concretely. -/
theorem handleFileNameConflicts_terminates_fresh_witness :
    (byPathHas ⟨some "w", [mkWorkspaceFile "a.txt" "1"]⟩ "b.txt" = false ∧
      handleFileNameConflicts ⟨some "w", [mkWorkspaceFile "a.txt" "1"]⟩ "b.txt" = "b.txt") ∧
    handleFileNameConflicts ⟨some "w", [mkWorkspaceFile "a.txt" "1"]⟩ "a.txt"
      ∉ wsPaths ⟨some "w", [mkWorkspaceFile "a.txt" "1"]⟩ := by
  refine ⟨⟨by decide, ?_⟩, ?_⟩
  · exact (handleFileNameConflicts_terminates_fresh _ "b.txt").2 (by decide)
  · exact (handleFileNameConflicts_terminates_fresh _ "a.txt").1

/-! ## Claim C8 — batch-level abort on structural validation failure -/

/-- C8: when any operation of a batch fails structural validation —
unrecognised kind, missing or non-string path, parent traversal or
leading separator in the path, or create/edit without string content —
`executeFileOperations` rejects the whole batch before the backup and
before any mutation: the state (workspace, backup slot, undo list) is
returned untouched and nothing is executed. -/
theorem batch_rejected_on_invalid_operation (st : AppState) (ops : List Json)
    (ans : Bool) (op : Json) (hop : op ∈ ops) (hbad : validOp op = false) :
    (runOps st ops ans).state = st ∧
    (runOps st ops ans).returned = false ∧
    (runOps st ops ans).backupTaken = false ∧
    (runOps st ops ans).executed = [] ∧
    (runOps st ops ans).failed = [] := by
  have hne : ops ≠ [] := by
    intro h
    rw [h] at hop
    exact absurd hop (List.not_mem_nil op)
  rw [runOps_of_invalid st ops ans hne (validBatch_false_of_mem hop hbad)]
  exact ⟨rfl, rfl, rfl, rfl, rfl⟩

/-! ## Computation lemmas for the operation constructors -/

theorem mkWorkspaceFile_path (p c : String) : (mkWorkspaceFile p c).path = p := rfl

theorem opIs_createOp (p c k : String) : opIs (createOp p c) k = ("create_file" == k) := rfl

theorem opIs_editOp (p c k : String) : opIs (editOp p c) k = ("edit_file" == k) := rfl

theorem opIs_deleteOp (p k : String) : opIs (deleteOp p) k = ("delete_file" == k) := rfl

theorem jget_createOp_path (p c : String) : jget (createOp p c) "path" = some (.str p) := rfl

theorem jget_deleteOp_path (p : String) : jget (deleteOp p) "path" = some (.str p) := rfl

theorem jget_editOp_path (p c : String) : jget (editOp p c) "path" = some (.str p) := rfl

theorem jgetStr_createOp_path (p c : String) : jgetStr (createOp p c) "path" = p := rfl

theorem jgetStr_createOp_content (p c : String) : jgetStr (createOp p c) "content" = c := rfl

theorem jgetStr_deleteOp_path (p : String) : jgetStr (deleteOp p) "path" = p := rfl

theorem autoInitWorkspace_files (ws : Workspace) : (autoInitWorkspace ws).files = ws.files := by
  rw [autoInitWorkspace]
  split <;> rfl

theorem byPathHas_autoInit (ws : Workspace) (p : String) :
    byPathHas (autoInitWorkspace ws) p = byPathHas ws p := by
  rw [byPathHas, byPathHas, autoInitWorkspace_files]

theorem createFile_ok (ws : Workspace) (p c : String) (hfree : byPathHas ws p = false) :
    createFile ws p c
      = .ok ⟨(autoInitWorkspace ws).name, ws.files ++ [mkWorkspaceFile p c]⟩ := by
  rw [createFile]
  simp only [byPathHas_autoInit, hfree, Bool.false_eq_true, if_false]
  rw [show ({ autoInitWorkspace ws with files := (autoInitWorkspace ws).files ++ [mkWorkspaceFile p c] } : Workspace)
    = ⟨(autoInitWorkspace ws).name, (autoInitWorkspace ws).files ++ [mkWorkspaceFile p c]⟩ from rfl]
  rw [autoInitWorkspace_files]

theorem createTargetPath_free (ws : Workspace) (p : String) :
    byPathHas ws (createTargetPath ws p) = false := by
  rw [createTargetPath]
  by_cases h : byPathHas ws p = true
  · rw [if_pos h]
    exact (byPathHas_false_iff ws _).mpr (handleFileNameConflicts_fresh ws p h).1
  · have hf : byPathHas ws p = false := by
      cases hb : byPathHas ws p
      · rfl
      · exact absurd hb h
    rw [if_neg (by simp [hf]), hf]

/-- Outcome of the create branch of the execution loop: a create never
fails; it lands in `executedOperations` under the (possibly renamed)
target path and appends exactly one file. -/
theorem execOneOp_createOp (ws : Workspace) (p c : String) :
    execOneOp ws (createOp p c)
      = (⟨(autoInitWorkspace ws).name,
          ws.files ++ [mkWorkspaceFile (createTargetPath ws p) c]⟩,
         [jsetField (createOp p c) "path" (.str (createTargetPath ws p))], []) := by
  rw [execOneOp]
  simp only [opIs_createOp, jgetStr_createOp_path, jgetStr_createOp_content]
  rw [createFile_ok ws (createTargetPath ws p) c (createTargetPath_free ws p)]
  simp

/-- Outcome of the delete branch on an absent path: the operation fails
with the not-found reason and the workspace is untouched. -/
theorem execOneOp_deleteOp_missing (ws : Workspace) (p : String)
    (hfree : byPathHas ws p = false) :
    execOneOp ws (deleteOp p)
      = (ws, [], [jsetField (deleteOp p) "reason" (.str "File not found")]) := by
  rw [execOneOp]
  simp only [opIs_deleteOp, jgetStr_deleteOp_path, hfree]
  simp

/-- Unfolding equations of the execution loop. -/
theorem execOpsLoop_nil (ws : Workspace) : execOpsLoop ws [] = (ws, [], []) := rfl

theorem execOpsLoop_cons (ws : Workspace) (op : Json) (rest : List Json) :
    execOpsLoop ws (op :: rest)
      = ((execOpsLoop (execOneOp ws op).1 rest).1,
         (execOneOp ws op).2.1 ++ (execOpsLoop (execOneOp ws op).1 rest).2.1,
         (execOneOp ws op).2.2 ++ (execOpsLoop (execOneOp ws op).1 rest).2.2) := rfl

theorem destructiveOps_ne_nil_of_delete {ws : Workspace} {ops : List Json} {op : Json}
    (hop : op ∈ ops) (hdel : opIs op "delete_file" = true) :
    destructiveOps ws ops ≠ [] := by
  have hmem : op ∈ destructiveOps ws ops :=
    List.mem_filter.mpr ⟨hop, by simp [hdel]⟩
  intro h
  rw [h] at hmem
  exact List.not_mem_nil op hmem

/-! ## Claim C2 — the destructive confirmation gate -/

/-- C2: for a validated batch, (a) if no operation is destructive — a
delete, or an edit of an existing path — the confirmation capability is
never invoked; (b) a batch holding at least one delete always invokes
it; (c) a denial ends the run with the state untouched: zero workspace
mutations and no backup taken. -/
theorem confirmation_gate (st : AppState) (ops : List Json) (ans : Bool)
    (hv : validBatch ops = true) :
    (destructiveOps st.workspace ops = [] →
      (runOps st ops ans).confirmInvoked = false) ∧
    ((∃ op ∈ ops, opIs op "delete_file" = true) →
      (runOps st ops ans).confirmInvoked = true) ∧
    (destructiveOps st.workspace ops ≠ [] → ans = false →
      (runOps st ops ans).state = st ∧
      (runOps st ops ans).backupTaken = false ∧
      (runOps st ops ans).executed = []) := by
  by_cases hemp : ops = []
  · subst hemp
    refine ⟨fun _ => rfl, ?_, ?_⟩
    · rintro ⟨op, hop, -⟩
      exact absurd hop (List.not_mem_nil op)
    · intro hne
      exact absurd rfl hne
  · have h1 : ops.isEmpty = false := by
      simp [List.isEmpty_iff, hemp]
    by_cases hdes : destructiveOps st.workspace ops = []
    · refine ⟨fun _ => ?_, ?_, ?_⟩
      · rw [runOps]
        simp only [h1, hv, Bool.not_true, Bool.false_eq_true, if_false,
          confirmDestructiveOperation, hdes, List.isEmpty_nil, if_true, Bool.not_false]
      · rintro ⟨op, hop, hdel⟩
        exact absurd hdes (destructiveOps_ne_nil_of_delete hop hdel)
      · intro hne
        exact absurd hdes hne
    · have hdesb : (destructiveOps st.workspace ops).isEmpty = false := by
        simp [List.isEmpty_iff, hdes]
      refine ⟨fun h => absurd h hdes, fun _ => ?_, fun _ hans => ?_⟩
      · rw [runOps]
        simp only [h1, hv, Bool.not_true, Bool.false_eq_true, if_false,
          confirmDestructiveOperation, hdesb]
        cases ans <;> simp
      · subst hans
        rw [runOps]
        simp only [h1, hv, Bool.not_true, Bool.false_eq_true, if_false,
          confirmDestructiveOperation, hdesb, Bool.not_false, if_true]
        exact ⟨trivial, trivial, trivial⟩

/-- Witness for `confirmation_gate`: a create-only batch does not invoke
the gate; a batch with a delete invokes it, and its denial leaves the
state untouched. -/
theorem confirmation_gate_witness :
    (validBatch [createOp "n.txt" "1"] = true ∧
      (runOps ⟨⟨some "w", [mkWorkspaceFile "a.txt" "1"]⟩, none, []⟩
        [createOp "n.txt" "1"] false).confirmInvoked = false) ∧
    (validBatch [deleteOp "a.txt"] = true ∧
      (runOps ⟨⟨some "w", [mkWorkspaceFile "a.txt" "1"]⟩, none, []⟩
        [deleteOp "a.txt"] false).confirmInvoked = true ∧
      (runOps ⟨⟨some "w", [mkWorkspaceFile "a.txt" "1"]⟩, none, []⟩
        [deleteOp "a.txt"] false).state
        = ⟨⟨some "w", [mkWorkspaceFile "a.txt" "1"]⟩, none, []⟩ ∧
      (runOps ⟨⟨some "w", [mkWorkspaceFile "a.txt" "1"]⟩, none, []⟩
        [deleteOp "a.txt"] false).backupTaken = false) := by
  refine ⟨⟨by decide, ?_⟩, ⟨by decide, ?_, ?_, ?_⟩⟩
  · exact (confirmation_gate ⟨⟨some "w", [mkWorkspaceFile "a.txt" "1"]⟩, none, []⟩
      [createOp "n.txt" "1"] false (by decide)).1 rfl
  · exact (confirmation_gate ⟨⟨some "w", [mkWorkspaceFile "a.txt" "1"]⟩, none, []⟩
      [deleteOp "a.txt"] false (by decide)).2.1
      ⟨deleteOp "a.txt", by simp, by decide⟩
  · exact ((confirmation_gate ⟨⟨some "w", [mkWorkspaceFile "a.txt" "1"]⟩, none, []⟩
      [deleteOp "a.txt"] false (by decide)).2.2 (fun h => List.noConfusion h) rfl).1
  · exact ((confirmation_gate ⟨⟨some "w", [mkWorkspaceFile "a.txt" "1"]⟩, none, []⟩
      [deleteOp "a.txt"] false (by decide)).2.2 (fun h => List.noConfusion h) rfl).2.1

/-! ## Claim C3 — undo restores the exact prior state -/

/-- C3: for every workspace holding exactly the file `x.txt` — any name,
any original file record — executing a batch that creates `y.txt` (any
content) and deletes `x.txt` and then invoking undo yields a workspace
holding exactly `x.txt` with its original content and no `y.txt`; the
snapshot taken before execution still holds the original file list after
the batch has mutated the live workspace. -/
theorem undo_restores_prior_state (nm : Option String) (xf : WFile) (cy : String)
    (hx : xf.path = "x.txt") :
    (undoLastOperations true
        (runOps ⟨⟨nm, [xf]⟩, none, []⟩
          [createOp "y.txt" cy, deleteOp "x.txt"] true).state).workspace.files
      = [xf] ∧
    byPathHas (undoLastOperations true
        (runOps ⟨⟨nm, [xf]⟩, none, []⟩
          [createOp "y.txt" cy, deleteOp "x.txt"] true).state).workspace "y.txt" = false ∧
    byPathHas (undoLastOperations true
        (runOps ⟨⟨nm, [xf]⟩, none, []⟩
          [createOp "y.txt" cy, deleteOp "x.txt"] true).state).workspace "x.txt" = true ∧
    (runOps ⟨⟨nm, [xf]⟩, none, []⟩
        [createOp "y.txt" cy, deleteOp "x.txt"] true).state.workspace.files
      = [mkWorkspaceFile "y.txt" cy] ∧
    (runOps ⟨⟨nm, [xf]⟩, none, []⟩
        [createOp "y.txt" cy, deleteOp "x.txt"] true).state.backup
      = some ⟨nm, [xf]⟩ := by
  have hauto : autoInitWorkspace ⟨nm, [xf]⟩ = ⟨nm, [xf]⟩ := by
    rw [autoInitWorkspace]
    simp
  have hbyY : byPathHas ⟨nm, [xf]⟩ "y.txt" = false := by
    simp [byPathHas, hx]
  have htgt : createTargetPath ⟨nm, [xf]⟩ "y.txt" = "y.txt" := by
    rw [createTargetPath, hbyY]
    simp
  have hstep1 : execOneOp ⟨nm, [xf]⟩ (createOp "y.txt" cy)
      = (⟨nm, [xf, mkWorkspaceFile "y.txt" cy]⟩,
         [jsetField (createOp "y.txt" cy) "path" (.str "y.txt")], []) := by
    rw [execOneOp_createOp, htgt, hauto]
    rfl
  have hbyX : byPathHas ⟨nm, [xf, mkWorkspaceFile "y.txt" cy]⟩ "x.txt" = true := by
    simp [byPathHas, hx]
  have hfil : [xf, mkWorkspaceFile "y.txt" cy].filter (fun f => !(f.path == "x.txt"))
      = [mkWorkspaceFile "y.txt" cy] := by
    simp [List.filter_cons, hx, mkWorkspaceFile_path]
  have hstep2 : execOneOp ⟨nm, [xf, mkWorkspaceFile "y.txt" cy]⟩ (deleteOp "x.txt")
      = (⟨nm, [mkWorkspaceFile "y.txt" cy]⟩, [deleteOp "x.txt"], []) := by
    rw [execOneOp]
    simp only [opIs_deleteOp, jgetStr_deleteOp_path]
    simp only [show (("delete_file" : String) == "create_file") = false from rfl,
      show (("delete_file" : String) == "edit_file") = false from rfl,
      show (("delete_file" : String) == "delete_file") = true from rfl,
      Bool.false_eq_true, if_false, if_true, hbyX]
    rw [deleteFile, if_pos hbyX]
    rw [show ({ (⟨nm, [xf, mkWorkspaceFile "y.txt" cy]⟩ : Workspace) with
        files := [xf, mkWorkspaceFile "y.txt" cy].filter (fun f => !(f.path == "x.txt")) } : Workspace)
      = ⟨nm, [xf, mkWorkspaceFile "y.txt" cy].filter (fun f => !(f.path == "x.txt"))⟩ from rfl]
    rw [hfil]
  have hrun : runOps ⟨⟨nm, [xf]⟩, none, []⟩ [createOp "y.txt" cy, deleteOp "x.txt"] true
      = ⟨⟨⟨nm, [mkWorkspaceFile "y.txt" cy]⟩, some ⟨nm, [xf]⟩,
          [jsetField (createOp "y.txt" cy) "path" (.str "y.txt"), deleteOp "x.txt"]⟩,
         true, true, true,
         [jsetField (createOp "y.txt" cy) "path" (.str "y.txt"), deleteOp "x.txt"], []⟩ := by
    rw [runOps]
    simp only [List.isEmpty_cons, Bool.false_eq_true, if_false,
      show validBatch [createOp "y.txt" cy, deleteOp "x.txt"] = true from rfl,
      Bool.not_true, confirmDestructiveOperation,
      show destructiveOps ⟨nm, [xf]⟩ [createOp "y.txt" cy, deleteOp "x.txt"]
        = [deleteOp "x.txt"] from rfl,
      Bool.not_false, if_true]
    simp only [backupWorkspaceState, execOpsLoop_cons, execOpsLoop_nil, hstep1]
    simp only [hstep2]
    simp
  rw [hrun]
  refine ⟨rfl, ?_, ?_, rfl, rfl⟩
  · simp [undoLastOperations, restoreWorkspaceState, byPathHas, hx]
  · simp [undoLastOperations, restoreWorkspaceState, byPathHas, hx]

/-- Witness for `undo_restores_prior_state` at a concrete workspace:
name `w`, `x.txt` with content `orig`, created content `cy`. -/
theorem undo_restores_prior_state_witness :
    (mkWorkspaceFile "x.txt" "orig").path = "x.txt" ∧
    (undoLastOperations true
        (runOps ⟨⟨some "w", [mkWorkspaceFile "x.txt" "orig"]⟩, none, []⟩
          [createOp "y.txt" "cy", deleteOp "x.txt"] true).state).workspace.files
      = [mkWorkspaceFile "x.txt" "orig"] ∧
    byPathHas (undoLastOperations true
        (runOps ⟨⟨some "w", [mkWorkspaceFile "x.txt" "orig"]⟩, none, []⟩
          [createOp "y.txt" "cy", deleteOp "x.txt"] true).state).workspace "y.txt" = false ∧
    (runOps ⟨⟨some "w", [mkWorkspaceFile "x.txt" "orig"]⟩, none, []⟩
        [createOp "y.txt" "cy", deleteOp "x.txt"] true).state.backup
      = some ⟨some "w", [mkWorkspaceFile "x.txt" "orig"]⟩ := by
  have h := undo_restores_prior_state (some "w") (mkWorkspaceFile "x.txt" "orig") "cy" rfl
  exact ⟨rfl, h.1, h.2.1, h.2.2.2.2⟩

/-! ## Claim C9 — failure isolation -/

/-- C9 counterexample: a validated batch of three operations whose second
is a delete of an absent path, for which the run does not end with two
executed and one failed operation — all three deletes fail, so the claim
as stated (quantified over every such batch) is false. -/
theorem op_failure_isolation_counterexample :
    validBatch [deleteOp "a.txt", deleteOp "b.txt", deleteOp "c.txt"] = true ∧
    byPathHas (⟨some "w", []⟩ : Workspace) "b.txt" = false ∧
    ¬((runOps ⟨⟨some "w", []⟩, none, []⟩
        [deleteOp "a.txt", deleteOp "b.txt", deleteOp "c.txt"] true).executed.length = 2 ∧
      (runOps ⟨⟨some "w", []⟩, none, []⟩
        [deleteOp "a.txt", deleteOp "b.txt", deleteOp "c.txt"] true).failed.length = 1) := by
  decide

/-- C9 as amended: in a validated three-operation batch whose first and
third operations are creates and whose second is a delete of a path that
is neither in the workspace nor the path under which the first create
executes, the first and third operations still execute — the batch ends
with two executed operations and one failed delete recorded with the
not-found reason; the failure does not abort the remaining batch. -/
theorem op_failure_isolation (st : AppState) (p1 c1 p2 p3 c3 : String)
    (hv : validBatch [createOp p1 c1, deleteOp p2, createOp p3 c3] = true)
    (hmiss : byPathHas st.workspace p2 = false)
    (hne : p2 ≠ createTargetPath st.workspace p1) :
    (runOps st [createOp p1 c1, deleteOp p2, createOp p3 c3] true).executed.length = 2 ∧
    (runOps st [createOp p1 c1, deleteOp p2, createOp p3 c3] true).failed
      = [jsetField (deleteOp p2) "reason" (.str "File not found")] := by
  have hdesb : (destructiveOps st.workspace
      [createOp p1 c1, deleteOp p2, createOp p3 c3]).isEmpty = false := by
    have hne2 := @destructiveOps_ne_nil_of_delete st.workspace
      [createOp p1 c1, deleteOp p2, createOp p3 c3]
      (deleteOp p2) (by simp) rfl
    simp [List.isEmpty_iff, hne2]
  have hmiss2 : byPathHas
      (⟨(autoInitWorkspace st.workspace).name,
        st.workspace.files ++ [mkWorkspaceFile (createTargetPath st.workspace p1) c1]⟩ : Workspace)
      p2 = false := by
    have hq : ((mkWorkspaceFile (createTargetPath st.workspace p1) c1).path == p2) = false := by
      simp [mkWorkspaceFile]
      exact fun h => hne h.symm
    show (st.workspace.files ++ [mkWorkspaceFile (createTargetPath st.workspace p1) c1]).any
        (fun f => f.path == p2) = false
    rw [List.any_append]
    simp only [List.any_cons, List.any_nil, hq, Bool.or_false]
    exact hmiss
  rw [runOps]
  simp only [List.isEmpty_cons, Bool.false_eq_true, if_false, hv, Bool.not_true,
    confirmDestructiveOperation, hdesb, Bool.not_false, if_true]
  simp only [backupWorkspaceState, execOpsLoop_cons, execOpsLoop_nil,
    execOneOp_createOp st.workspace p1 c1]
  simp only [execOneOp_deleteOp_missing _ p2 hmiss2]
  simp only [execOneOp_createOp]
  simp

/-- Witness for `op_failure_isolation` on a concrete batch. -/
theorem op_failure_isolation_witness :
    validBatch [createOp "p.txt" "1", deleteOp "q.txt", createOp "r.txt" "2"] = true ∧
    byPathHas (⟨some "w", []⟩ : Workspace) "q.txt" = false ∧
    (runOps ⟨⟨some "w", []⟩, none, []⟩
        [createOp "p.txt" "1", deleteOp "q.txt", createOp "r.txt" "2"] true).executed.length = 2 ∧
    (runOps ⟨⟨some "w", []⟩, none, []⟩
        [createOp "p.txt" "1", deleteOp "q.txt", createOp "r.txt" "2"] true).failed
      = [jsetField (deleteOp "q.txt") "reason" (.str "File not found")] := by
  have h := op_failure_isolation ⟨⟨some "w", []⟩, none, []⟩
    "p.txt" "1" "q.txt" "r.txt" "2" (by decide) (by decide) (by decide)
  exact ⟨by decide, by decide, h.1, h.2⟩

/-! ## Decompositions of the string scanning primitives -/

theorem listStartsWith_iff (pat l : List Char) :
    listStartsWith l pat = true ↔ ∃ v, l = pat ++ v := by
  induction pat generalizing l with
  | nil => simp [listStartsWith]
  | cons b bs ih =>
    cases l with
    | nil => simp [listStartsWith]
    | cons c t =>
      rw [listStartsWith]
      simp only [Bool.and_eq_true, beq_iff_eq, ih, List.cons_append, List.cons_eq_cons]
      constructor
      · rintro ⟨rfl, v, rfl⟩
        exact ⟨v, rfl, rfl⟩
      · rintro ⟨v, rfl, rfl⟩
        exact ⟨rfl, v, rfl⟩

theorem listContainsSub_iff (l pat : List Char) :
    listContainsSub l pat = true ↔ ∃ u v, l = u ++ pat ++ v := by
  induction l with
  | nil =>
    rw [listContainsSub]
    simp only [List.isEmpty_iff]
    constructor
    · rintro rfl
      exact ⟨[], [], rfl⟩
    · rintro ⟨u, v, huv⟩
      rcases List.append_eq_nil.mp (List.append_eq_nil.mp huv.symm).1 with ⟨-, h2⟩
      exact h2
  | cons c t ih =>
    rw [listContainsSub]
    simp only [Bool.or_eq_true, listStartsWith_iff, ih]
    constructor
    · rintro (⟨v, h⟩ | ⟨u, v, rfl⟩)
      · exact ⟨[], v, by simp [h]⟩
      · exact ⟨c :: u, v, rfl⟩
    · rintro ⟨u, v, huv⟩
      cases u with
      | nil =>
        left
        exact ⟨v, by simpa using huv⟩
      | cons d u2 =>
        right
        simp only [List.cons_append, List.cons_eq_cons] at huv
        exact ⟨u2, v, huv.2⟩

theorem dropWhile_keeps_pair (q : Char → Bool) (a b : Char) (ha : q a = false) :
    ∀ l : List Char, (∃ u v, l = u ++ a :: b :: v) →
      ∃ u v, l.dropWhile q = u ++ a :: b :: v := by
  intro l
  induction l with
  | nil =>
    rintro ⟨u, v, huv⟩
    exact absurd huv.symm (by simp)
  | cons c t ih =>
    rintro ⟨u, v, huv⟩
    cases u with
    | nil =>
      simp only [List.nil_append, List.cons_eq_cons] at huv
      obtain ⟨rfl, rfl⟩ := huv
      rw [List.dropWhile_cons, ha]
      exact ⟨[], v, by simp⟩
    | cons d u2 =>
      simp only [List.cons_append, List.cons_eq_cons] at huv
      obtain ⟨rfl, huv2⟩ := huv
      rw [List.dropWhile_cons]
      by_cases hq : q c = true
      · rw [hq]
        simp only [if_true]
        exact ih ⟨u2, v, huv2⟩
      · rw [show q c = false by cases h : q c with
          | false => rfl
          | true => exact absurd h hq]
        exact ⟨c :: u2, v, by simp [huv2]⟩

theorem reverse_keeps_dotdot (l : List Char) :
    (∃ u v, l = u ++ '.' :: '.' :: v) →
    ∃ u v, l.reverse = u ++ '.' :: '.' :: v := by
  rintro ⟨u, v, rfl⟩
  refine ⟨v.reverse, u.reverse, ?_⟩
  simp

theorem strContains_dotdot_iff (s : String) :
    strContains s ".." = true ↔ ∃ u v, s.data = u ++ '.' :: '.' :: v := by
  rw [strContains, listContainsSub_iff]
  constructor
  · rintro ⟨u, v, h⟩
    exact ⟨u, v, by simpa using h⟩
  · rintro ⟨u, v, h⟩
    exact ⟨u, v, by simpa using h⟩

theorem jsTrim_keeps_dotdot (s : String) (h : strContains s ".." = true) :
    strContains (jsTrim s) ".." = true := by
  rw [strContains_dotdot_iff] at h
  rw [strContains_dotdot_iff, jsTrim]
  have hdot : jsWhitespaceChar '.' = false := rfl
  exact reverse_keeps_dotdot _
    (dropWhile_keeps_pair jsWhitespaceChar '.' '.' hdot _
      (reverse_keeps_dotdot _
        (dropWhile_keeps_pair jsWhitespaceChar '.' '.' hdot _ h)))

theorem stripQuoteChars_keeps_dotdot (s : String) (h : strContains s ".." = true) :
    strContains (stripQuoteChars s) ".." = true := by
  rw [strContains_dotdot_iff] at h
  rw [strContains_dotdot_iff, stripQuoteChars]
  rcases h with ⟨u, v, huv⟩
  refine ⟨u.filter (fun c => !quoteChar c), v.filter (fun c => !quoteChar c), ?_⟩
  rw [huv]
  simp [List.filter_append, List.filter_cons, quoteChar]

theorem dropWhile_keeps_head (q : Char → Bool) (a : Char) (ha : q a = false)
    (l : List Char) (h : ∃ v, l = a :: v) : ∃ v, l.dropWhile q = a :: v := by
  rcases h with ⟨v, rfl⟩
  rw [List.dropWhile_cons, ha]
  exact ⟨v, by simp⟩

theorem dropWhile_keeps_last (q : Char → Bool) (a : Char) (ha : q a = false) :
    ∀ xs : List Char, ∃ ys, (xs ++ [a]).dropWhile q = ys ++ [a] := by
  intro xs
  induction xs with
  | nil =>
    refine ⟨[], ?_⟩
    rw [List.nil_append, List.dropWhile_cons, ha]
    simp
  | cons c t ih =>
    rw [List.cons_append, List.dropWhile_cons]
    by_cases hq : q c = true
    · rw [hq]
      simpa using ih
    · rw [show q c = false by cases h : q c with
        | false => rfl
        | true => exact absurd h hq]
      rcases ih with ⟨ys, _⟩
      exact ⟨c :: t, by simp⟩

theorem jsTrim_keeps_slash_head (s : String)
    (h : ∃ v, s.data = '/' :: v) : ∃ v, (jsTrim s).data = '/' :: v := by
  have hslash : jsWhitespaceChar '/' = false := rfl
  rw [jsTrim]
  rcases dropWhile_keeps_head jsWhitespaceChar '/' hslash s.data h with ⟨v1, hv1⟩
  rw [hv1]
  have hrev : ('/' :: v1).reverse = v1.reverse ++ ['/'] := by simp
  rw [hrev]
  rcases dropWhile_keeps_last jsWhitespaceChar '/' hslash v1.reverse with ⟨ys, hys⟩
  rw [hys]
  exact ⟨ys.reverse, by simp⟩

theorem strStartsWith_slash_iff (s : String) :
    strStartsWith s "/" = true ↔ ∃ v, s.data = '/' :: v := by
  rw [strStartsWith, listStartsWith_iff]
  constructor
  · rintro ⟨v, h⟩
    exact ⟨v, by simpa using h⟩
  · rintro ⟨v, h⟩
    exact ⟨v, by simpa using h⟩

theorem stripQuoteChars_keeps_slash_head (s : String)
    (h : ∃ v, s.data = '/' :: v) : ∃ v, (stripQuoteChars s).data = '/' :: v := by
  rcases h with ⟨v, hv⟩
  rw [stripQuoteChars]
  rw [hv]
  exact ⟨v.filter (fun c => !quoteChar c), by simp [List.filter_cons, quoteChar]⟩

/-! ## Claim C4 — parent traversal and absolute paths are rejected -/

theorem validOp_false_of_bad_path (op : Json) (p : String)
    (hpath : jget op "path" = some (.str p))
    (hbad : strContains p ".." = true ∨ strStartsWith p "/" = true) :
    validOp op = false := by
  rw [validOp, hpath]
  rcases hbad with h | h <;> simp [h]

/-- C4: every candidate path containing `..` or beginning with the path
separator is rejected: the parse-time path filter `isValidFilePath`
refuses it, and at the execution entry the structural validator refuses
any batch holding an operation on such a path, so no operation on the
path is ever executed against the workspace — the run returns with the
state untouched and nothing executed. -/
theorem traversal_paths_rejected (p : String)
    (hbad : strContains p ".." = true ∨ strStartsWith p "/" = true) :
    isValidFilePath p = false ∧
    ∀ (st : AppState) (ops : List Json) (ans : Bool) (op : Json),
      op ∈ ops → jget op "path" = some (.str p) →
      (runOps st ops ans).state = st ∧
      (runOps st ops ans).executed = [] ∧
      (runOps st ops ans).returned = false ∧
      (runOps st ops ans).backupTaken = false := by
  constructor
  · by_cases hemp : p.isEmpty = true
    · rw [isValidFilePath, if_pos hemp]
    · rw [isValidFilePath,
        if_neg (by cases h : p.isEmpty with
          | true => exact absurd h hemp
          | false => simp)]
      have hcond : (strContains (jsTrim (stripQuoteChars p)) ".."
          || strStartsWith (jsTrim (stripQuoteChars p)) "/"
          || strContains (jsTrim (stripQuoteChars p)) "\\") = true := by
        rcases hbad with h | h
        · have h2 := jsTrim_keeps_dotdot _ (stripQuoteChars_keeps_dotdot p h)
          simp [h2]
        · have h2 := (strStartsWith_slash_iff _).mpr
            (jsTrim_keeps_slash_head _
              (stripQuoteChars_keeps_slash_head p ((strStartsWith_slash_iff p).mp h)))
          simp [h2]
      rw [if_pos hcond]
  · intro st ops ans op hop hpath
    have hbadop := validOp_false_of_bad_path op p hpath hbad
    exact ⟨(batch_rejected_on_invalid_operation st ops ans op hop hbadop).1,
      (batch_rejected_on_invalid_operation st ops ans op hop hbadop).2.2.2.1,
      (batch_rejected_on_invalid_operation st ops ans op hop hbadop).2.1,
      (batch_rejected_on_invalid_operation st ops ans op hop hbadop).2.2.1⟩

/-- Witness for `traversal_paths_rejected` at the traversal path
`../secrets.txt` and at the absolute path `/etc/x.txt`. -/
theorem traversal_paths_rejected_witness :
    (strContains "../secrets.txt" ".." = true ∧
      isValidFilePath "../secrets.txt" = false ∧
      (runOps ⟨⟨some "w", [mkWorkspaceFile "a.txt" "1"]⟩, none, []⟩
        [createOp "../secrets.txt" "x"] true).state
        = ⟨⟨some "w", [mkWorkspaceFile "a.txt" "1"]⟩, none, []⟩ ∧
      (runOps ⟨⟨some "w", [mkWorkspaceFile "a.txt" "1"]⟩, none, []⟩
        [createOp "../secrets.txt" "x"] true).executed = []) ∧
    (strStartsWith "/etc/x.txt" "/" = true ∧
      isValidFilePath "/etc/x.txt" = false) := by
  refine ⟨⟨by decide, ?_, ?_, ?_⟩, by decide, ?_⟩
  · exact (traversal_paths_rejected "../secrets.txt" (Or.inl (by decide))).1
  · exact ((traversal_paths_rejected "../secrets.txt" (Or.inl (by decide))).2
      ⟨⟨some "w", [mkWorkspaceFile "a.txt" "1"]⟩, none, []⟩
      [createOp "../secrets.txt" "x"] true (createOp "../secrets.txt" "x")
      (by simp) rfl).1
  · exact ((traversal_paths_rejected "../secrets.txt" (Or.inl (by decide))).2
      ⟨⟨some "w", [mkWorkspaceFile "a.txt" "1"]⟩, none, []⟩
      [createOp "../secrets.txt" "x"] true (createOp "../secrets.txt" "x")
      (by simp) rfl).2.1
  · exact (traversal_paths_rejected "/etc/x.txt" (Or.inr (by decide))).1

/-! ## Pair-splitting over concatenations (for the rename-cleanliness proof) -/

theorem pair_mono_left (a b : Char) (X Y : List Char)
    (h : ∃ u v, X = u ++ a :: b :: v) : ∃ u v, X ++ Y = u ++ a :: b :: v := by
  rcases h with ⟨u, v, rfl⟩
  exact ⟨u, v ++ Y, by simp⟩

theorem pair_mono_right (a b : Char) (X Y : List Char)
    (h : ∃ u v, Y = u ++ a :: b :: v) : ∃ u v, X ++ Y = u ++ a :: b :: v := by
  rcases h with ⟨u, v, rfl⟩
  exact ⟨X ++ u, v, by simp⟩

theorem pair_split (a b : Char) : ∀ X Y : List Char,
    (∃ u v, X ++ Y = u ++ a :: b :: v) →
    (∃ u v, X = u ++ a :: b :: v) ∨ (∃ u v, Y = u ++ a :: b :: v) ∨
    ((∃ w, X = w ++ [a]) ∧ ∃ w, Y = b :: w) := by
  intro X
  induction X with
  | nil =>
    intro Y h
    right
    left
    simpa using h
  | cons c X2 ih =>
    intro Y h
    rcases h with ⟨u, v, huv⟩
    cases u with
    | nil =>
      simp only [List.nil_append, List.cons_append, List.cons_eq_cons] at huv
      obtain ⟨rfl, hrest⟩ := huv
      cases X2 with
      | nil =>
        right
        right
        exact ⟨⟨[], by simp⟩, ⟨v, by simpa using hrest⟩⟩
      | cons d X3 =>
        simp only [List.cons_append, List.cons_eq_cons] at hrest
        obtain ⟨rfl, -⟩ := hrest
        left
        exact ⟨[], X3, by simp⟩
    | cons e u2 =>
      simp only [List.cons_append, List.cons_eq_cons] at huv
      obtain ⟨rfl, hrest⟩ := huv
      rcases ih Y ⟨u2, v, hrest⟩ with h1 | h2 | ⟨⟨w, hw⟩, hs⟩
      · rcases h1 with ⟨u3, v3, h1⟩
        exact Or.inl ⟨c :: u3, v3, by simp [h1]⟩
      · exact Or.inr (Or.inl h2)
      · exact Or.inr (Or.inr ⟨⟨c :: w, by simp [hw]⟩, hs⟩)

theorem decDigitsAux_digits (fuel : Nat) : ∀ (n : Nat), ∀ c ∈ decDigitsAux fuel n,
    ∃ d, d < 10 ∧ c = decDigitChar d := by
  induction fuel with
  | zero =>
    intro n c hc
    exact absurd hc (by simp [decDigitsAux])
  | succ fuel ih =>
    intro n c hc
    rw [decDigitsAux] at hc
    by_cases h : n < 10
    · rw [if_pos h] at hc
      rcases List.mem_singleton.mp hc with rfl
      exact ⟨n, h, rfl⟩
    · rw [if_neg h] at hc
      rcases List.mem_append.mp hc with h2 | h2
      · exact ih (n / 10) c h2
      · rcases List.mem_singleton.mp h2 with rfl
        exact ⟨n % 10, Nat.mod_lt n (by omega), rfl⟩

theorem natToDec_no_dot (n : Nat) : ∀ c ∈ (natToDec n).data, c ≠ '.' := by
  intro c hc
  rcases decDigitsAux_digits (n + 1) n c hc with ⟨d, hd, rfl⟩
  intro hdot
  have h1 : (decDigitChar d).toNat = 48 + d := decDigitChar_toNat d hd
  rw [hdot] at h1
  have h2 : ('.').toNat = 46 := by decide
  rw [h2] at h1
  omega

/-! ## Cleanliness of the collision rename -/

theorem lastDotSplit_append (p : String) :
    (lastDotSplit p).1.data ++ (lastDotSplit p).2.data = p.data := by
  rw [lastDotSplit]
  cases h : p.data.reverse.findIdx? (fun c => c == '.') with
  | none => simp
  | some i => simp [List.take_append_drop]

theorem renameCandidate_data (base ext : String) (n : Nat) :
    (renameCandidate base ext n).data
      = base.data ++ '_' :: ((natToDec n).data ++ ext.data) := by
  simp [renameCandidate, String.data_append]

theorem renameCandidate_clean (p : String) (n : Nat)
    (hdot : strContains p ".." = false) (hsl : strStartsWith p "/" = false) :
    strContains (renameCandidate (lastDotSplit p).1 (lastDotSplit p).2 n) ".." = false ∧
    strStartsWith (renameCandidate (lastDotSplit p).1 (lastDotSplit p).2 n) "/" = false := by
  have hsplit := lastDotSplit_append p
  have hpnopair : ¬∃ u v, p.data = u ++ '.' :: '.' :: v := by
    intro hpair
    rw [show p.data = (lastDotSplit p).1.data ++ (lastDotSplit p).2.data from hsplit.symm] at hpair
    have : strContains p ".." = true := by
      rw [strContains_dotdot_iff, ← hsplit]
      exact hpair
    rw [this] at hdot
    exact absurd hdot (by simp)
  constructor
  · cases hcon : strContains (renameCandidate (lastDotSplit p).1 (lastDotSplit p).2 n) ".." with
    | false => rfl
    | true =>
      exfalso
      rw [strContains_dotdot_iff, renameCandidate_data] at hcon
      rcases pair_split '.' '.' _ _ hcon with h1 | h2 | ⟨-, ⟨w, hw⟩⟩
      · exact hpnopair (by rw [← hsplit]; exact pair_mono_left _ _ _ _ h1)
      · rcases h2 with ⟨u, v, huv⟩
        cases u with
        | nil =>
          simp only [List.nil_append, List.cons_eq_cons] at huv
          exact absurd huv.1 (by decide)
        | cons e u2 =>
          simp only [List.cons_append, List.cons_eq_cons] at huv
          rcases pair_split '.' '.' _ _ ⟨u2, v, huv.2⟩ with h3 | h4 | ⟨⟨w, hw⟩, -⟩
          · rcases h3 with ⟨u3, v3, h3⟩
            have hmem : '.' ∈ (natToDec n).data := by
              rw [h3]
              simp
            exact natToDec_no_dot n '.' hmem rfl
          · exact hpnopair (by rw [← hsplit]; exact pair_mono_right _ _ _ _ h4)
          · have hmem : '.' ∈ (natToDec n).data := by
              rw [hw]
              simp
            exact natToDec_no_dot n '.' hmem rfl
      · simp only [List.cons_eq_cons] at hw
        exact absurd hw.1 (by decide)
  · cases hsw : strStartsWith (renameCandidate (lastDotSplit p).1 (lastDotSplit p).2 n) "/" with
    | false => rfl
    | true =>
      exfalso
      rcases (strStartsWith_slash_iff _).mp hsw with ⟨v, hv⟩
      rw [renameCandidate_data] at hv
      cases hb : (lastDotSplit p).1.data with
      | nil =>
        rw [hb] at hv
        simp only [List.nil_append, List.cons_eq_cons] at hv
        exact absurd hv.1 (by decide)
      | cons c bt =>
        rw [hb] at hv
        simp only [List.cons_append, List.cons_eq_cons] at hv
        have hp : p.data = '/' :: (bt ++ (lastDotSplit p).2.data) := by
          rw [← hsplit, hb, hv.1]
          simp
        have : strStartsWith p "/" = true := (strStartsWith_slash_iff p).mpr ⟨_, hp⟩
        rw [this] at hsl
        exact absurd hsl (by simp)

theorem renameLoop_shape (taken : List String) (base ext : String) :
    ∀ fuel counter, ∃ n, renameLoop taken base ext counter fuel = renameCandidate base ext n := by
  intro fuel
  induction fuel with
  | zero =>
    intro counter
    exact ⟨counter, rfl⟩
  | succ fuel ih =>
    intro counter
    rw [renameLoop]
    by_cases h : taken.contains (renameCandidate base ext counter) = true
    · rw [if_pos h]
      exact ih (counter + 1)
    · rw [if_neg h]
      exact ⟨counter, rfl⟩

theorem createTargetPath_clean (ws : Workspace) (p : String)
    (hdot : strContains p ".." = false) (hsl : strStartsWith p "/" = false) :
    strContains (createTargetPath ws p) ".." = false ∧
    strStartsWith (createTargetPath ws p) "/" = false := by
  rw [createTargetPath]
  by_cases h : byPathHas ws p = true
  · rw [if_pos h, handleFileNameConflicts, h]
    simp only [Bool.not_true, Bool.false_eq_true, if_false]
    rcases renameLoop_shape (wsPaths ws) (lastDotSplit p).1 (lastDotSplit p).2
      (ws.files.length + 1) 1 with ⟨n, hn⟩
    rw [hn]
    exact renameCandidate_clean p n hdot hsl
  · rw [if_neg h]
    exact ⟨hdot, hsl⟩

/-! ## Claim C5 — persisted path-naming rule -/

/-- The path rule exactly as the spec states it (forward-slash separators
only, no leading slash, no `..` segment), as a workspace invariant. -/
def specPathInvariant (ws : Workspace) : Bool :=
  ws.files.all (fun f =>
    !strContains f.path "\\" && !strStartsWith f.path "/" &&
    !((splitSlash f.path).contains ".."))

/-- The part of the path rule the execution pipeline actually enforces:
no `..` substring and no leading slash. -/
def wsPathsSafe (ws : Workspace) : Bool :=
  ws.files.all (fun f => !strContains f.path ".." && !strStartsWith f.path "/")

/-- C5 counterexample: a validated structured batch may carry a
backslash-separated path — the executor checks only `..` and a leading
`/` — so after execution the workspace holds a path with a backslash
separator, violating the stated invariant on an initially clean
workspace. -/
theorem workspace_path_invariant_counterexample :
    validBatch [createOp "a\\b.txt" "x"] = true ∧
    specPathInvariant (⟨some "w", []⟩ : Workspace) = true ∧
    specPathInvariant
      (runOps ⟨⟨some "w", []⟩, none, []⟩ [createOp "a\\b.txt" "x"] true).state.workspace
      = false := by
  decide

theorem validOp_path_clean (op : Json) (h : validOp op = true) :
    ∃ p, jget op "path" = some (.str p) ∧ strContains p ".." = false ∧
      strStartsWith p "/" = false ∧ jgetStr op "path" = p := by
  rw [validOp] at h
  simp only [Bool.and_eq_true] at h
  obtain ⟨⟨⟨⟨⟨-, -⟩, -⟩, -⟩, hpath⟩, -⟩ := h
  cases hj : jget op "path" with
  | none =>
    rw [hj] at hpath
    exact absurd hpath (by simp)
  | some jv =>
    cases jv with
    | str p =>
      rw [hj] at hpath
      simp only [Bool.and_eq_true, Bool.not_eq_true'] at hpath
      exact ⟨p, rfl, hpath.1, hpath.2, by rw [jgetStr, hj]⟩
    | null =>
      rw [hj] at hpath
      exact absurd hpath (by simp)
    | bool b =>
      rw [hj] at hpath
      exact absurd hpath (by simp)
    | num s =>
      rw [hj] at hpath
      exact absurd hpath (by simp)
    | arr l =>
      rw [hj] at hpath
      exact absurd hpath (by simp)
    | obj l =>
      rw [hj] at hpath
      exact absurd hpath (by simp)

theorem wsPathsSafe_append (nm : Option String) (fs : List WFile) (f : WFile)
    (h : wsPathsSafe ⟨nm, fs⟩ = true)
    (hf : strContains f.path ".." = false ∧ strStartsWith f.path "/" = false) :
    ∀ nm2, wsPathsSafe ⟨nm2, fs ++ [f]⟩ = true := by
  intro nm2
  rw [wsPathsSafe, List.all_append]
  rw [wsPathsSafe] at h
  simp only [h, List.all_cons, List.all_nil, Bool.true_and, Bool.and_true, hf.1, hf.2]
  simp


theorem execOneOp_preserves_safety (ws : Workspace) (op : Json)
    (hv : validOp op = true) (h : wsPathsSafe ws = true) :
    wsPathsSafe (execOneOp ws op).1 = true := by
  rcases validOp_path_clean op hv with ⟨p, hjp, hdot, hsl, hstr⟩
  have hauto : ∀ pth c, wsPathsSafe ws = true →
      strContains pth ".." = false → strStartsWith pth "/" = false →
      ∀ r, createFile ws pth c = r →
      wsPathsSafe (match r with
        | .ok ws2 => ws2
        | .error _ => ws) = true := by
    intro pth c hsafe hd hs r hr
    rw [createFile] at hr
    by_cases hb : byPathHas (autoInitWorkspace ws) pth = true
    · rw [if_pos hb] at hr
      rw [← hr]
      exact hsafe
    · rw [if_neg hb] at hr
      rw [← hr]
      have hsafe2 : wsPathsSafe ⟨ws.name, ws.files⟩ = true := hsafe
      have := wsPathsSafe_append ws.name ws.files (mkWorkspaceFile pth c) hsafe2
        (by rw [mkWorkspaceFile_path]; exact ⟨hd, hs⟩) (autoInitWorkspace ws).name
      rw [wsPathsSafe] at this ⊢
      simpa [autoInitWorkspace_files] using this
  rw [execOneOp]
  by_cases hc : opIs op "create_file" = true
  · simp only [hc, if_true, hstr]
    rcases createTargetPath_clean ws p hdot hsl with ⟨hd2, hs2⟩
    have := hauto (createTargetPath ws p) (jgetStr op "content") h hd2 hs2
      (createFile ws (createTargetPath ws p) (jgetStr op "content")) rfl
    cases hcf : createFile ws (createTargetPath ws p) (jgetStr op "content") with
    | ok ws2 =>
      rw [hcf] at this
      simpa using this
    | error msg =>
      rw [hcf] at this
      simpa using this
  · simp only [hc]
    by_cases he : opIs op "edit_file" = true
    · simp only [he, if_true, hstr, Bool.false_eq_true, if_false]
      by_cases hhas : byPathHas ws p = true
      · simp only [hhas, Bool.not_true, Bool.false_eq_true, if_false]
        rw [updateFileContent, if_pos hhas]
        rw [wsPathsSafe, List.all_eq_true] at h ⊢
        intro g hg
        rcases List.mem_map.mp hg with ⟨f, hf, rfl⟩
        have hpf := h f hf
        by_cases heq : (f.path == p) = true
        · simp only [heq, if_true]
          exact hpf
        · simp only [heq]
          simpa using hpf
      · have hhasf : byPathHas ws p = false := by
          cases hb : byPathHas ws p
          · rfl
          · exact absurd hb hhas
        simp only [hhasf, Bool.not_false, if_true]
        have := hauto p (jgetStr op "content") h hdot hsl (createFile ws p (jgetStr op "content")) rfl
        cases hcf : createFile ws p (jgetStr op "content") with
        | ok ws2 =>
          rw [hcf] at this
          simpa using this
        | error msg =>
          rw [hcf] at this
          simpa using this
    · simp only [he, Bool.false_eq_true, if_false]
      by_cases hd : opIs op "delete_file" = true
      · simp only [hd, if_true, hstr]
        by_cases hhas : byPathHas ws p = true
        · simp only [hhas, if_true]
          rw [deleteFile, if_pos hhas]
          rw [wsPathsSafe, List.all_eq_true] at h ⊢
          intro f hf
          exact h f (List.mem_of_mem_filter hf)
        · have hhasf : byPathHas ws p = false := by
            cases hb : byPathHas ws p
            · rfl
            · exact absurd hb hhas
          simp only [hhasf, Bool.false_eq_true, if_false]
          exact h
      · simp only [hd, Bool.false_eq_true, if_false]
        exact h

theorem execOpsLoop_preserves_safety (ops : List Json) :
    ∀ ws : Workspace, (∀ op ∈ ops, validOp op = true) → wsPathsSafe ws = true →
    wsPathsSafe (execOpsLoop ws ops).1 = true := by
  induction ops with
  | nil =>
    intro ws _ h
    exact h
  | cons op rest ih =>
    intro ws hv h
    rw [execOpsLoop_cons]
    exact ih (execOneOp ws op).1 (fun o ho => hv o (List.mem_cons_of_mem op ho))
      (execOneOp_preserves_safety ws op (hv op (List.mem_cons_self op rest)) h)

/-- C5 as amended: executing any batch preserves the two path properties
the pipeline actually enforces — no workspace path contains `..` and none
begins with `/`.  The forward-slash-only part of the spec's rule is not
enforced on the structured-payload route (see the counterexample), and
imported files are taken as the browser provides them, with no
normalization. -/
theorem exec_preserves_path_safety (st : AppState) (ops : List Json) (ans : Bool)
    (h : wsPathsSafe st.workspace = true) :
    wsPathsSafe (runOps st ops ans).state.workspace = true := by
  rw [runOps]
  by_cases hemp : ops.isEmpty = true
  · rw [if_pos hemp]
    exact h
  · rw [if_neg hemp]
    by_cases hv : validBatch ops = true
    · simp only [hv, Bool.not_true, Bool.false_eq_true, if_false]
      by_cases hconf : (confirmDestructiveOperation ans st.workspace ops).1 = true
      · simp only [hconf, Bool.not_true, Bool.false_eq_true, if_false]
        have hall : ∀ op ∈ ops, validOp op = true := by
          rw [validBatch, List.all_eq_true] at hv
          exact hv
        exact execOpsLoop_preserves_safety ops (backupWorkspaceState st).workspace hall h
      · have hcf : (confirmDestructiveOperation ans st.workspace ops).1 = false := by
          cases hb : (confirmDestructiveOperation ans st.workspace ops).1
          · rfl
          · exact absurd hb hconf
        simp only [hcf, Bool.not_false, if_true]
        exact h
    · have hvf : validBatch ops = false := by
        cases hb : validBatch ops
        · rfl
        · exact absurd hb hv
      simp only [hvf, Bool.not_false, if_true]
      exact h

/-- Witness for `exec_preserves_path_safety` on a concrete batch over a
clean workspace. -/
theorem exec_preserves_path_safety_witness :
    wsPathsSafe (⟨some "w", [mkWorkspaceFile "a.txt" "1"]⟩ : Workspace) = true ∧
    wsPathsSafe (runOps ⟨⟨some "w", [mkWorkspaceFile "a.txt" "1"]⟩, none, []⟩
      [createOp "a.txt" "2", deleteOp "a.txt", editOp "b.txt" "3"] true).state.workspace
      = true := by
  refine ⟨by decide, ?_⟩
  exact exec_preserves_path_safety ⟨⟨some "w", [mkWorkspaceFile "a.txt" "1"]⟩, none, []⟩
    [createOp "a.txt" "2", deleteOp "a.txt", editOp "b.txt" "3"] true (by decide)

/-! ## Claim C7 — create-on-collision renames deterministically -/

/-- Complete evaluation of a single-create batch: creates are never
destructive, so the gate is not consulted; the create executes under the
collision-adjusted target path. -/
theorem runOps_single_create (st : AppState) (p c : String) (ans : Bool)
    (hv : validOp (createOp p c) = true) :
    runOps st [createOp p c] ans
      = ⟨⟨⟨(autoInitWorkspace st.workspace).name,
            st.workspace.files ++ [mkWorkspaceFile (createTargetPath st.workspace p) c]⟩,
          some ⟨st.workspace.name, st.workspace.files⟩,
          [jsetField (createOp p c) "path" (.str (createTargetPath st.workspace p))]⟩,
         true, false, true,
         [jsetField (createOp p c) "path" (.str (createTargetPath st.workspace p))], []⟩ := by
  have hvb : validBatch [createOp p c] = true := by
    simp [validBatch, hv]
  have hdes : destructiveOps st.workspace [createOp p c] = [] := rfl
  rw [runOps]
  simp only [List.isEmpty_cons, Bool.false_eq_true, if_false, hvb, Bool.not_true,
    confirmDestructiveOperation, hdes, List.isEmpty_nil, if_true, Bool.not_false]
  simp only [backupWorkspaceState, execOpsLoop_cons, execOpsLoop_nil,
    execOneOp_createOp st.workspace p c]
  simp

/-- C7: a validated create whose path is already present executes under
the deterministic rename: the least counter `n ≥ 1` for which inserting
`_n` before the extension gives an unused path; the operation is reported
as executed under the new path — an adjustment, not a failure — and
exactly one file is appended. -/
theorem create_collision_renames (st : AppState) (p c : String) (ans : Bool)
    (hv : validOp (createOp p c) = true)
    (hcol : byPathHas st.workspace p = true) :
    ∃ n, 1 ≤ n ∧
      createTargetPath st.workspace p
        = renameCandidate (lastDotSplit p).1 (lastDotSplit p).2 n ∧
      byPathHas st.workspace (createTargetPath st.workspace p) = false ∧
      (∀ m, 1 ≤ m → m < n →
        renameCandidate (lastDotSplit p).1 (lastDotSplit p).2 m ∈ wsPaths st.workspace) ∧
      (runOps st [createOp p c] ans).executed
        = [jsetField (createOp p c) "path" (.str (createTargetPath st.workspace p))] ∧
      (runOps st [createOp p c] ans).failed = [] ∧
      (runOps st [createOp p c] ans).state.workspace.files
        = st.workspace.files ++ [mkWorkspaceFile (createTargetPath st.workspace p) c] := by
  have htgt : createTargetPath st.workspace p = handleFileNameConflicts st.workspace p := by
    rw [createTargetPath, if_pos hcol]
  rcases handleFileNameConflicts_fresh st.workspace p hcol with ⟨hfree, n, hge, heq, hmin⟩
  refine ⟨n, hge, by rw [htgt, heq], ?_, hmin, ?_, ?_, ?_⟩
  · rw [htgt]
    exact (byPathHas_false_iff _ _).mpr hfree
  · rw [runOps_single_create st p c ans hv]
  · rw [runOps_single_create st p c ans hv]
  · rw [runOps_single_create st p c ans hv]

/-- Witness for `create_collision_renames`: with `a.txt` present a create
of `a.txt` executes as `a_1.txt`, and as `a_2.txt` when `a_1.txt` is also
present. -/
theorem create_collision_renames_witness :
    (validOp (createOp "a.txt" "2") = true ∧
      byPathHas ⟨some "w", [mkWorkspaceFile "a.txt" "1"]⟩ "a.txt" = true ∧
      createTargetPath ⟨some "w", [mkWorkspaceFile "a.txt" "1"]⟩ "a.txt" = "a_1.txt" ∧
      (∃ n, 1 ≤ n ∧
        createTargetPath ⟨some "w", [mkWorkspaceFile "a.txt" "1"]⟩ "a.txt"
          = renameCandidate (lastDotSplit "a.txt").1 (lastDotSplit "a.txt").2 n ∧
        byPathHas ⟨some "w", [mkWorkspaceFile "a.txt" "1"]⟩
          (createTargetPath ⟨some "w", [mkWorkspaceFile "a.txt" "1"]⟩ "a.txt") = false ∧
        (∀ m, 1 ≤ m → m < n →
          renameCandidate (lastDotSplit "a.txt").1 (lastDotSplit "a.txt").2 m
            ∈ wsPaths ⟨some "w", [mkWorkspaceFile "a.txt" "1"]⟩) ∧
        (runOps ⟨⟨some "w", [mkWorkspaceFile "a.txt" "1"]⟩, none, []⟩
            [createOp "a.txt" "2"] true).executed
          = [jsetField (createOp "a.txt" "2") "path"
              (.str (createTargetPath ⟨some "w", [mkWorkspaceFile "a.txt" "1"]⟩ "a.txt"))] ∧
        (runOps ⟨⟨some "w", [mkWorkspaceFile "a.txt" "1"]⟩, none, []⟩
            [createOp "a.txt" "2"] true).failed = [] ∧
        (runOps ⟨⟨some "w", [mkWorkspaceFile "a.txt" "1"]⟩, none, []⟩
            [createOp "a.txt" "2"] true).state.workspace.files
          = [mkWorkspaceFile "a.txt" "1"] ++
              [mkWorkspaceFile
                (createTargetPath ⟨some "w", [mkWorkspaceFile "a.txt" "1"]⟩ "a.txt") "2"])) ∧
    createTargetPath
        ⟨some "w", [mkWorkspaceFile "a.txt" "1", mkWorkspaceFile "a_1.txt" "1"]⟩ "a.txt"
      = "a_2.txt" := by
  refine ⟨⟨by decide, by decide, by decide, ?_⟩, by decide⟩
  exact create_collision_renames ⟨⟨some "w", [mkWorkspaceFile "a.txt" "1"]⟩, none, []⟩
    "a.txt" "2" true (by decide) (by decide)

/-- Witness for `batch_rejected_on_invalid_operation`: a batch holding a
valid create and a create with a traversal path is rejected wholesale. -/
theorem batch_rejected_on_invalid_operation_witness :
    createOp "../e.txt" "x" ∈ [createOp "a.txt" "1", createOp "../e.txt" "x"] ∧
    validOp (createOp "../e.txt" "x") = false ∧
    (runOps ⟨⟨some "w", [mkWorkspaceFile "a.txt" "1"]⟩, none, []⟩
      [createOp "a.txt" "1", createOp "../e.txt" "x"] true).state
      = ⟨⟨some "w", [mkWorkspaceFile "a.txt" "1"]⟩, none, []⟩ := by
  refine ⟨by simp, by decide, ?_⟩
  exact (batch_rejected_on_invalid_operation _ _ true (createOp "../e.txt" "x")
    (by simp) (by decide)).1

end LampCode
